import Mathlib

/-!
# Verification of the email2jira pipeline

Shallow embedding of the `email2jira` repository (modules `email_parser.py`
and `email2jira.py`) and proofs about the claims of its specification.

Text is modelled as `List Char`.  Python dictionaries holding the parsed
ticket payload are modelled as association lists over `PyVal` (a Python
value: string, list of strings, `None`, or a list of attachments).
Fallible Python code is modelled with `Except Exc`.

The external collaborators (mail source, ticket sink, extractor as seen by
the orchestrator) follow the interface of the spec's section 6: every call
either returns a value or raises; `Email2Jira.run` is embedded as a
function of a `Behavior` record supplying the outcome of each collaborator
call, and it produces the boolean result, the success counter and the trace
of calls and error-log records it performs.
-/

set_option maxHeartbeats 1000000

deriving instance DecidableEq for Except

/-- Text, as a list of characters (Python `str`). -/
abbrev Str := List Char

/-- Convert a Lean string literal to our text type. -/
def str (s : String) : Str := s.toList

/-- An email attachment as built by `EmailReader._parse_email`
(a dict with `filename` plus either `content` bytes or a `path`;
a missing key is `none`). -/
structure Attachment where
  filename : Str
  content : Option Str
  path : Option Str
deriving DecidableEq, Repr

/-- A Python value that can appear in the jira-payload dictionary. -/
inductive PyVal where
  | pstr (s : Str)
  | plist (l : List Str)
  | pnone
  | patts (l : List Attachment)
deriving DecidableEq, Repr

/-- Python truthiness of a `PyVal` (`if value:`). -/
def PyVal.truthy : PyVal → Bool
  | .pstr s => !s.isEmpty
  | .plist l => !l.isEmpty
  | .pnone => false
  | .patts l => !l.isEmpty

/-- The email-data dictionary produced by `EmailReader.get_unread_emails`:
keys `id`, `subject`, `sender`, `date`, `body`, `html_body`, `attachments`.
`Option` models a possibly-absent key (`dict.get`). -/
structure EmailData where
  id : Str
  subject : Option Str
  sender : Option Str
  date : Option Str
  body : Option Str
  html_body : Option Str
  attachments : Option (List Attachment)
deriving DecidableEq, Repr

/-- `email_field in email_data and email_data[email_field]` support:
look an attribute up by name, as the dictionary has it. -/
def EmailData.getVal (e : EmailData) (k : Str) : Option PyVal :=
  if k = str "id" then some (.pstr e.id)
  else if k = str "subject" then e.subject.map .pstr
  else if k = str "sender" then e.sender.map .pstr
  else if k = str "date" then e.date.map .pstr
  else if k = str "body" then e.body.map .pstr
  else if k = str "html_body" then e.html_body.map .pstr
  else if k = str "attachments" then e.attachments.map .patts
  else none

/-- The jira-payload dictionary (`jira_data` in `parse_email`). -/
abbrev JiraDict := List (Str × PyVal)

/-- Dictionary lookup (`d[k]` / `d.get(k)`). -/
def getKey? (d : JiraDict) (k : Str) : Option PyVal :=
  match d with
  | [] => none
  | (k', v) :: rest => if k' = k then some v else getKey? rest k

/-- Dictionary update `d[k] = v`: replaces in place, else appends
(Python dict keeps the original key position on overwrite). -/
def setKey (d : JiraDict) (k : Str) (v : PyVal) : JiraDict :=
  match d with
  | [] => [(k, v)]
  | (k', v') :: rest => if k' = k then (k, v) :: rest else (k', v') :: setKey rest k v

/-- A Python exception, as far as the embedded code distinguishes them. -/
inductive Exc where
  | regexError
  | keyError (k : Str)
  | typeError
  | other (msg : Str)
deriving DecidableEq, Repr

/-! ## A small regex engine

`email_parser.py` uses `re.search`/`re.sub` with the five default patterns
(e.g. `(?i)type:\s*(\w+)`).  The engine below covers the constructs those
patterns use: literal characters, character classes built from `\w`, `\s`,
`\d` and single characters, with `*`, `+` and `?` quantifiers, one capture
group, and the `(?i)` flag, with Python's leftmost/greedy backtracking
semantics. -/

/-- An atom of a character class. -/
inductive ClsAtom where
  | wordA          -- `\w` (ASCII model: letters, digits, underscore)
  | spaceA         -- `\s`
  | digitA         -- `\d`
  | chA (c : Char) -- a single (possibly escaped) character
deriving DecidableEq, Repr

/-- Is `c` an ASCII word character? -/
def isWordChar (c : Char) : Bool :=
  (('a' ≤ c && c ≤ 'z') || ('A' ≤ c && c ≤ 'Z') || ('0' ≤ c && c ≤ '9') || c = '_')

/-- Is `c` a regex whitespace character? -/
def isSpaceChar (c : Char) : Bool :=
  (c = ' ' || c = '\t' || c = '\n' || c = '\r' || c = Char.ofNat 11 || c = Char.ofNat 12)

/-- Case folding used for `(?i)` matching. -/
def fold (ci : Bool) (c : Char) : Char := if ci then c.toLower else c

/-- Does character `c` belong to the class atom (under flag `ci`)? -/
def atomMem (ci : Bool) (a : ClsAtom) (c : Char) : Bool :=
  match a with
  | .wordA => isWordChar c
  | .spaceA => isSpaceChar c
  | .digitA => ('0' ≤ c && c ≤ '9')
  | .chA c' => fold ci c' = fold ci c

/-- Does `c` belong to the class (a union of atoms)? -/
def clsMem (ci : Bool) (l : List ClsAtom) (c : Char) : Bool :=
  l.any (fun a => atomMem ci a c)

/-- One token of a regular expression. -/
inductive RTok where
  | lit (c : Char)            -- a literal character
  | cls (l : List ClsAtom)    -- a character class, matched once
  | star (l : List ClsAtom)   -- class followed by `*`
  | plus (l : List ClsAtom)   -- class followed by `+`
  | opt (c : Char)            -- literal followed by `?`
deriving DecidableEq, Repr

/-- Match a token list against a prefix of `s` with greedy backtracking;
returns the length consumed on success. -/
def matchToks (ci : Bool) : List RTok → Str → Option Nat
  | [], _ => some 0
  | .lit _ :: _, [] => none
  | .lit c :: ts, x :: xs =>
    if fold ci c = fold ci x then (matchToks ci ts xs).map (· + 1) else none
  | .cls _ :: _, [] => none
  | .cls l :: ts, x :: xs =>
    if clsMem ci l x then (matchToks ci ts xs).map (· + 1) else none
  | .opt _ :: ts, [] => matchToks ci ts []
  | .opt c :: ts, x :: xs =>
    if fold ci c = fold ci x then
      match matchToks ci ts xs with
      | some n => some (n + 1)
      | none => matchToks ci ts (x :: xs)
    else matchToks ci ts (x :: xs)
  | .star l :: ts, s =>
    let k := (s.takeWhile (clsMem ci l)).length
    (List.range (k + 1)).reverse.findSome? (fun j =>
      (matchToks ci ts (s.drop j)).map (· + j))
  | .plus l :: ts, s =>
    let k := (s.takeWhile (clsMem ci l)).length
    (List.range k).reverse.findSome? (fun j =>
      (matchToks ci ts (s.drop (j + 1))).map (· + j + 1))
termination_by toks _ => toks.length

/-- Match the token list `pre` and then the token list `grp` against a
prefix of `s`, with greedy backtracking across the boundary; returns the
lengths consumed by `pre` and by `grp`.  The split is what
`match.group(1)` needs. -/
def matchTwo (ci : Bool) : List RTok → List RTok → Str → Option (Nat × Nat)
  | [], grp, s => (matchToks ci grp s).map (fun n => (0, n))
  | .lit _ :: _, _, [] => none
  | .lit c :: ts, grp, x :: xs =>
    if fold ci c = fold ci x then
      (matchTwo ci ts grp xs).map (fun p => (p.1 + 1, p.2))
    else none
  | .cls _ :: _, _, [] => none
  | .cls l :: ts, grp, x :: xs =>
    if clsMem ci l x then
      (matchTwo ci ts grp xs).map (fun p => (p.1 + 1, p.2))
    else none
  | .opt _ :: ts, grp, [] => matchTwo ci ts grp []
  | .opt c :: ts, grp, x :: xs =>
    if fold ci c = fold ci x then
      match matchTwo ci ts grp xs with
      | some p => some (p.1 + 1, p.2)
      | none => matchTwo ci ts grp (x :: xs)
    else matchTwo ci ts grp (x :: xs)
  | .star l :: ts, grp, s =>
    let k := (s.takeWhile (clsMem ci l)).length
    (List.range (k + 1)).reverse.findSome? (fun j =>
      (matchTwo ci ts grp (s.drop j)).map (fun p => (p.1 + j, p.2)))
  | .plus l :: ts, grp, s =>
    let k := (s.takeWhile (clsMem ci l)).length
    (List.range k).reverse.findSome? (fun j =>
      (matchTwo ci ts grp (s.drop (j + 1))).map (fun p => (p.1 + j + 1, p.2)))
termination_by pre _ _ => pre.length

/-- A compiled regular expression of the shape the parser uses:
an optional `(?i)` flag, the tokens before the capture group, and the
tokens of the (single) capture group. -/
structure Pattern where
  ci : Bool
  pre : List RTok
  grp : List RTok
deriving DecidableEq, Repr

/-- A found match: start offset, length of the part before the group,
length of the group. -/
structure RMatch where
  start : Nat
  preLen : Nat
  grpLen : Nat
deriving DecidableEq, Repr

/-- `re.search`: leftmost match, greedy within a start position. -/
def reSearch (p : Pattern) (s : Str) : Option RMatch :=
  (List.range (s.length + 1)).findSome? (fun i =>
    (matchTwo p.ci p.pre p.grp (s.drop i)).map (fun q => ⟨i, q.1, q.2⟩))

/-- `match.group(1)` of a found match. -/
def groupOf (s : Str) (m : RMatch) : Str :=
  ((s.drop (m.start + m.preLen)).take m.grpLen)

/-- `re.sub(pattern, '', s)` with fuel (each round consumes at least one
character of the remainder, so `s.length + 1` fuel is exact). -/
def reSubGo (p : Pattern) : Nat → Str → Str
  | 0, s => s
  | n + 1, s =>
    match reSearch p s with
    | none => s
    | some m =>
      if m.preLen + m.grpLen = 0 then
        match s.drop m.start with
        | [] => s.take m.start
        | c :: rest => s.take m.start ++ c :: reSubGo p n rest
      else
        s.take m.start ++ reSubGo p n (s.drop (m.start + (m.preLen + m.grpLen)))

/-- `re.sub(pattern, '', s)`. -/
def reSub (p : Pattern) (s : Str) : Str := reSubGo p (s.length + 1) s

/-- A pattern string stored in the parser's configuration: the empty
string (falsy), a non-compilable string, or a compilable one.
`EmailParser.__init__` stores these without compiling them. -/
inductive RawPattern where
  | empty
  | invalid
  | valid (p : Pattern)
deriving DecidableEq, Repr

/-- `re.sub(pattern, '', s)` on a stored pattern string: compiling a
non-compilable pattern raises `re.error`; the empty pattern replaces the
empty match everywhere with the empty string, leaving `s` unchanged. -/
def reSubR (rp : RawPattern) (s : Str) : Except Exc Str :=
  match rp with
  | .empty => .ok s
  | .invalid => .error .regexError
  | .valid p => .ok (reSub p s)

/-! ## Marker truncation and the cleaning pipeline (`EmailParser._clean_body`) -/

/-- First occurrence of `p` as a contiguous substring of `s`
(offset of the leftmost start), `none` if `p` does not occur.
This is Python's `s.find(p)` / the split point of `s.split(p)[0]`. -/
def firstOcc (p : Str) : Str → Option Nat
  | [] => if p = [] then some 0 else none
  | c :: rest => if p.isPrefixOf (c :: rest) then some 0 else (firstOcc p rest).map (· + 1)

/-- One step of the marker loops of `_clean_body`:
`if marker in body: body = body.split(marker)[0]`. -/
def truncMarker (s : Str) (p : Str) : Str :=
  match firstOcc p s with
  | none => s
  | some i => s.take i

/-- The signature markers, in the order the source lists them. -/
def sigMarkers : List Str :=
  [str "\n-- \n", str "\nRegards,", str "\nBest regards,", str "\nThanks,",
   str "\nThank you,", str "\nCheers,"]

/-- The quoted-reply markers, in the order the source lists them. -/
def quoteMarkers : List Str :=
  [str "\nOn ", str "\n> ", str "\n-----Original Message-----"]

/-- `re.sub(r'\n{3,}', '\n\n', body)`: every maximal run of three or more
newlines becomes exactly two; shorter runs and other characters are kept. -/
def collapseRuns : Str → Str
  | [] => []
  | c :: rest =>
    if c = '\n' then
      let k := (rest.takeWhile (· = '\n')).length + 1
      (if 3 ≤ k then ['\n', '\n'] else List.replicate k '\n')
        ++ collapseRuns (rest.dropWhile (· = '\n'))
    else c :: collapseRuns rest
termination_by s => s.length
decreasing_by
  · simp only [List.length_cons]
    have := (List.dropWhile_sublist (p := fun c => decide (c = '\n')) (l := rest)).length_le
    omega
  · simp

/-- Python `str.strip()` — here over the regex whitespace set, which covers
the characters the embedded texts use. -/
def pyStrip (s : Str) : Str :=
  ((s.dropWhile isSpaceChar).reverse.dropWhile isSpaceChar).reverse

/-! ## The parser (`EmailParser`) -/

/-- The parser configuration dictionary (`config.get` keys of
`EmailParser.__init__`); `none` models an absent key. -/
structure ParserConfig where
  subject_prefix : Option Str
  default_issue_type : Option Str
  default_priority : Option Str
  custom_patterns : Option (List (Str × RawPattern))
  field_mappings : Option (List (Str × Str))

/-- The parser state after `EmailParser.__init__`. -/
structure EmailParser where
  subject_prefix : Str
  default_issue_type : Str
  default_priority : Str
  custom_patterns : List (Str × RawPattern)
  field_mappings : List (Str × Str)
  patterns : List (Str × RawPattern)

/-- `{**default_patterns, **custom_patterns}`: keys of the first dict in
order with updated values, then new keys of the second in order. -/
def dictMerge (base extra : List (Str × RawPattern)) : List (Str × RawPattern) :=
  base.map (fun kv => match extra.lookup kv.1 with
    | some v => (kv.1, v)
    | none => kv)
  ++ extra.filter (fun kv => (base.lookup kv.1).isNone)

/-- `(?i)type:\s*(\w+)` -/
def patIssueType : Pattern :=
  ⟨true, [.lit 't', .lit 'y', .lit 'p', .lit 'e', .lit ':', .star [.spaceA]],
   [.plus [.wordA]]⟩

/-- `(?i)priority:\s*(\w+)` -/
def patPriority : Pattern :=
  ⟨true, [.lit 'p', .lit 'r', .lit 'i', .lit 'o', .lit 'r', .lit 'i', .lit 't',
          .lit 'y', .lit ':', .star [.spaceA]],
   [.plus [.wordA]]⟩

/-- `(?i)components?:\s*([\w\s,]+)` -/
def patComponents : Pattern :=
  ⟨true, [.lit 'c', .lit 'o', .lit 'm', .lit 'p', .lit 'o', .lit 'n', .lit 'e',
          .lit 'n', .lit 't', .opt 's', .lit ':', .star [.spaceA]],
   [.plus [.wordA, .spaceA, .chA ',']]⟩

/-- `(?i)labels?:\s*([\w\s,\-]+)` -/
def patLabels : Pattern :=
  ⟨true, [.lit 'l', .lit 'a', .lit 'b', .lit 'e', .lit 'l', .opt 's', .lit ':',
          .star [.spaceA]],
   [.plus [.wordA, .spaceA, .chA ',', .chA '-']]⟩

/-- `(?i)assignee:\s*([\w\.\-@]+)` -/
def patAssignee : Pattern :=
  ⟨true, [.lit 'a', .lit 's', .lit 's', .lit 'i', .lit 'g', .lit 'n', .lit 'e',
          .lit 'e', .lit ':', .star [.spaceA]],
   [.plus [.wordA, .chA '.', .chA '-', .chA '@']]⟩

/-- `self.default_patterns` of `EmailParser.__init__`. -/
def defaultPatterns : List (Str × RawPattern) :=
  [(str "issue_type", .valid patIssueType),
   (str "priority", .valid patPriority),
   (str "components", .valid patComponents),
   (str "labels", .valid patLabels),
   (str "assignee", .valid patAssignee)]

/-- `EmailParser.__init__`: stores configuration values with their
defaults and merges the default patterns with the custom ones.  The
patterns are stored as they are, without compiling them. -/
def mkEmailParser (cfg : ParserConfig) : EmailParser :=
  let cust := cfg.custom_patterns.getD []
  { subject_prefix := cfg.subject_prefix.getD []
    default_issue_type := cfg.default_issue_type.getD (str "Story")
    default_priority := cfg.default_priority.getD (str "Medium")
    custom_patterns := cust
    field_mappings := cfg.field_mappings.getD []
    patterns := dictMerge defaultPatterns cust }

/-- The pattern-removal stage of `_clean_body`:
`for pattern_name, pattern in self.patterns.items(): body = re.sub(pattern, '', body)`. -/
def subAllE : List (Str × RawPattern) → Str → Except Exc Str
  | [], s => .ok s
  | (_, rp) :: rest, s =>
    match reSubR rp s with
    | .error e => .error e
    | .ok s' => subAllE rest s'

/-- Stages 2-5 of `_clean_body`: signature truncation, quoted-reply
truncation, newline collapsing, strip. -/
def postClean (s : Str) : Str :=
  pyStrip (collapseRuns (quoteMarkers.foldl truncMarker (sigMarkers.foldl truncMarker s)))

/-- `EmailParser._clean_body`. -/
def cleanBody (p : EmailParser) (body : Str) : Except Exc Str :=
  match subAllE p.patterns body with
  | .error e => .error e
  | .ok s => .ok (postClean s)

/-- `EmailParser._extract_field`. -/
def extractField (p : EmailParser) (text : Str) (fieldName : Str) : Except Exc (Option Str) :=
  if text = [] then .ok none
  else
    match p.patterns.lookup fieldName with
    | none => .ok none
    | some .empty => .ok none
    | some .invalid => .error .regexError
    | some (.valid pat) =>
      match reSearch pat text with
      | none => .ok none
      | some m =>
        if groupOf text m ≠ [] then .ok (some (pyStrip (groupOf text m)))
        else .ok none

/-- Split on commas, strip each item, drop empty items
(the list part of `_extract_list_field`). -/
def splitCommaClean (s : Str) : List Str :=
  ((s.splitOn ',').map pyStrip).filter (fun x => !x.isEmpty)

/-- `EmailParser._extract_list_field`. -/
def extractListField (p : EmailParser) (text : Str) (fieldName : Str) : Except Exc (List Str) :=
  match extractField p text fieldName with
  | .error e => .error e
  | .ok none => .ok []
  | .ok (some v) => if v = [] then .ok [] else .ok (splitCommaClean v)

/-- `EmailParser._get_summary`. -/
def getSummary (p : EmailParser) (e : EmailData) : Str :=
  let subject := e.subject.getD (str "No Subject")
  if p.subject_prefix ≠ [] then p.subject_prefix ++ [' '] ++ subject else subject

/-- `EmailParser._get_description`. -/
def getDescription (p : EmailParser) (e : EmailData) : Except Exc Str :=
  let body0 := e.body.getD []
  let body1 :=
    if body0.isEmpty && !(e.html_body.getD []).isEmpty then e.html_body.getD [] else body0
  match cleanBody p body1 with
  | .error exc => .error exc
  | .ok cleaned =>
    let sender := e.sender.getD (str "Unknown")
    let date := e.date.getD (str "Unknown")
    .ok (str "\nFrom: " ++ sender ++ str "\nDate: " ++ date ++ str "\n\n"
         ++ cleaned ++ str "\n")

/-- `EmailParser._apply_field_mappings`. -/
def applyFieldMappings (e : EmailData) (maps : List (Str × Str)) (d : JiraDict) : JiraDict :=
  match maps with
  | [] => d
  | (src, tgt) :: rest =>
    match e.getVal src with
    | some v => if v.truthy then applyFieldMappings e rest (setKey d tgt v)
                else applyFieldMappings e rest d
    | none => applyFieldMappings e rest d

/-- `EmailParser.parse_email` before the field-mapping pass: the initial
payload dictionary plus the pattern-extraction updates. -/
def prePayload (p : EmailParser) (e : EmailData) : Except Exc JiraDict := do
  let summary := getSummary p e
  let description ← getDescription p e
  let jd : JiraDict :=
    [(str "summary", .pstr summary),
     (str "description", .pstr description),
     (str "issue_type", .pstr p.default_issue_type),
     (str "priority", .pstr p.default_priority),
     (str "labels", .plist []),
     (str "components", .plist []),
     (str "assignee", .pnone),
     (str "attachments", .patts (e.attachments.getD []))]
  let body := e.body.getD []
  let issueType ← extractField p body (str "issue_type")
  let jd := match issueType with
    | some v => if v ≠ [] then setKey jd (str "issue_type") (.pstr v) else jd
    | none => jd
  let priority ← extractField p body (str "priority")
  let jd := match priority with
    | some v => if v ≠ [] then setKey jd (str "priority") (.pstr v) else jd
    | none => jd
  let components ← extractListField p body (str "components")
  let jd := if components ≠ [] then setKey jd (str "components") (.plist components) else jd
  let labels ← extractListField p body (str "labels")
  let jd := if labels ≠ [] then setKey jd (str "labels") (.plist labels) else jd
  let assignee ← extractField p body (str "assignee")
  let jd := match assignee with
    | some v => if v ≠ [] then setKey jd (str "assignee") (.pstr v) else jd
    | none => jd
  pure jd

/-- `EmailParser.parse_email`. -/
def parseEmail (p : EmailParser) (e : EmailData) : Except Exc JiraDict :=
  match prePayload p e with
  | .error exc => .error exc
  | .ok jd => .ok (applyFieldMappings e p.field_mappings jd)

/-! ## The run orchestrator (`Email2Jira.run`)

The collaborators follow the interface of spec section 6: each call either
returns a value or raises (`Except Exc`).  A `Behavior` fixes the outcome
of every call a cycle can make; `run` is the literal translation of
`Email2Jira.run` over it.  Besides the boolean result and the
`successful_count` counter it returns the trace of collaborator calls and
`logger.error` records the cycle performs, in order. -/

/-- An error-log record written by `Email2Jira.run` (`logger.error`). -/
inductive LogMsg where
  | connectFailed                 -- "Failed to connect to email server"
  | selectFailed                  -- "Failed to select mailbox"
  | jiraConnectFailed             -- "Failed to connect to Jira server"
  | createFailed (summary : PyVal)  -- "Failed to create Jira issue for email: {summary}"
  | perMessage (e : Exc)          -- "Error processing email: {e}"
  | runFailed (e : Exc)           -- "Error running Email2Jira: {e}"
deriving DecidableEq, Repr

/-- One observable step of a cycle: a collaborator call or an error log. -/
inductive Ev where
  | connectCall | selectCall | fetchCall | jiraConnectCall
  | parseCall (id : Str)
  | createCall (id : Str)
  | attachCall (id : Str) (filename : Str)
  | markReadCall (id : Str)
  | discSource | discJira
  | logErr (m : LogMsg)
deriving DecidableEq, Repr

/-- Outcomes of the collaborator calls a cycle can make.  Each is either a
returned value (`.ok`) or a raised exception (`.error`), per the
collaborator contract of spec section 6. -/
structure Behavior where
  connect : Except Exc Bool
  selectMailbox : Except Exc Bool
  fetchUnread : Except Exc (List EmailData)
  jiraConnect : Except Exc Bool
  parse : EmailData → Except Exc JiraDict
  createIssue : List PyVal → Except Exc (Option Str)
  addAttachment : Str → Str → Str → Except Exc Bool
  markRead : Str → Except Exc Bool
  disconnectSource : Except Exc Unit
  disconnectJira : Except Exc Unit

/-- The keyword arguments of `create_issue`, looked up from `jira_data` in
source order; a missing key raises `KeyError`. -/
def createArgsOf (jd : JiraDict) : Except Exc (List PyVal) := do
  let get (k : Str) : Except Exc PyVal :=
    match getKey? jd k with
    | some v => .ok v
    | none => .error (.keyError k)
  let s ← get (str "summary")
  let d ← get (str "description")
  let it ← get (str "issue_type")
  let pr ← get (str "priority")
  let la ← get (str "labels")
  let co ← get (str "components")
  let asg ← get (str "assignee")
  pure [s, d, it, pr, la, co, asg]

/-- The attachment-upload loop: for each attachment, look up
`attachment['content']` (raising `KeyError` when the dict has no such key,
as with the reader's `path`-style attachments) and call `add_attachment`,
ignoring its boolean result.  Returns the calls made and the first raised
exception, if any. -/
def uploadAtts (b : Behavior) (mid : Str) (key : Str) :
    List Attachment → List Ev × Option Exc
  | [] => ([], none)
  | a :: rest =>
    match a.content with
    | none => ([], some (.keyError (str "content")))
    | some data =>
      match b.addAttachment key data a.filename with
      | .error e => ([.attachCall mid a.filename], some e)
      | .ok _ =>
        let r := uploadAtts b mid key rest
        (.attachCall mid a.filename :: r.1, r.2)

/-- The loop body of `Email2Jira.run` for one message (the inner
`try`/`except`): returns the trace of this message's processing and
whether `successful_count` was incremented. -/
def processMsg (b : Behavior) (dryRun : Bool) (m : EmailData) : List Ev × Bool :=
  match b.parse m with
  | .error e => ([.parseCall m.id, .logErr (.perMessage e)], false)
  | .ok jd =>
    match getKey? jd (str "summary") with
    | none => ([.parseCall m.id, .logErr (.perMessage (.keyError (str "summary")))], false)
    | some sv =>
      if dryRun then
        match b.markRead m.id with
        | .error e => ([.parseCall m.id, .markReadCall m.id, .logErr (.perMessage e)], true)
        | .ok _ => ([.parseCall m.id, .markReadCall m.id], true)
      else
        match createArgsOf jd with
        | .error e => ([.parseCall m.id, .logErr (.perMessage e)], false)
        | .ok args =>
          match b.createIssue args with
          | .error e => ([.parseCall m.id, .createCall m.id, .logErr (.perMessage e)], false)
          | .ok k =>
            match k with
            | none => ([.parseCall m.id, .createCall m.id, .logErr (.createFailed sv)], false)
            | some key =>
              if key = [] then
                ([.parseCall m.id, .createCall m.id, .logErr (.createFailed sv)], false)
              else
                match getKey? jd (str "attachments") with
                | none =>
                  ([.parseCall m.id, .createCall m.id,
                    .logErr (.perMessage (.keyError (str "attachments")))], false)
                | some (.patts l) =>
                  let up := uploadAtts b m.id key l
                  match up.2 with
                  | some e =>
                    ([.parseCall m.id, .createCall m.id] ++ up.1
                      ++ [.logErr (.perMessage e)], false)
                  | none =>
                    match b.markRead m.id with
                    | .error e =>
                      ([.parseCall m.id, .createCall m.id] ++ up.1
                        ++ [.markReadCall m.id, .logErr (.perMessage e)], true)
                    | .ok _ =>
                      ([.parseCall m.id, .createCall m.id] ++ up.1
                        ++ [.markReadCall m.id], true)
                | some _ =>
                  ([.parseCall m.id, .createCall m.id, .logErr (.perMessage .typeError)], false)

/-- The per-message loop: concatenated traces and the final
`successful_count`. -/
def runLoop (b : Behavior) (dryRun : Bool) (msgs : List EmailData) : List Ev × Nat :=
  msgs.foldl (fun acc m =>
    let r := processMsg b dryRun m
    (acc.1 ++ r.1, acc.2 + (if r.2 then 1 else 0))) ([], 0)

/-- The result of one cycle: the returned boolean, the final
`successful_count`, and the trace. -/
structure RunResult where
  ok : Bool
  succeeded : Nat
  trace : List Ev
deriving DecidableEq, Repr

/-- The tail of a successful-loop cycle: disconnect the source, then (when
not in dry-run mode) disconnect the sink; a raise during either is caught
by the outer handler, which returns `False` without further cleanup. -/
def runTail (b : Behavior) (dryRun : Bool) (pre : List Ev) (lp : List Ev × Nat) : RunResult :=
  match b.disconnectSource with
  | .error e => ⟨false, lp.2, pre ++ lp.1 ++ [.discSource, .logErr (.runFailed e)]⟩
  | .ok _ =>
    if dryRun then ⟨true, lp.2, pre ++ lp.1 ++ [.discSource]⟩
    else
      match b.disconnectJira with
      | .error e => ⟨false, lp.2, pre ++ lp.1 ++ [.discSource, .discJira, .logErr (.runFailed e)]⟩
      | .ok _ => ⟨true, lp.2, pre ++ lp.1 ++ [.discSource, .discJira]⟩

/-- `Email2Jira.run`.  The outer `try`/`except` catches any raise from a
collaborator call, logs it and returns `False`; note that no cleanup
happens on that path (the source translates failure signalled by a `False`
return into an explicit `disconnect()` call, but has no `finally`). -/
def run (b : Behavior) (dryRun : Bool) : RunResult :=
  match b.connect with
  | .error e => ⟨false, 0, [.connectCall, .logErr (.runFailed e)]⟩
  | .ok false => ⟨false, 0, [.connectCall, .logErr .connectFailed]⟩
  | .ok true =>
    match b.selectMailbox with
    | .error e => ⟨false, 0, [.connectCall, .selectCall, .logErr (.runFailed e)]⟩
    | .ok false =>
      match b.disconnectSource with
      | .error e =>
        ⟨false, 0, [.connectCall, .selectCall, .logErr .selectFailed, .discSource,
                    .logErr (.runFailed e)]⟩
      | .ok _ => ⟨false, 0, [.connectCall, .selectCall, .logErr .selectFailed, .discSource]⟩
    | .ok true =>
      match b.fetchUnread with
      | .error e => ⟨false, 0, [.connectCall, .selectCall, .fetchCall, .logErr (.runFailed e)]⟩
      | .ok msgs =>
        if msgs.isEmpty then
          match b.disconnectSource with
          | .error e =>
            ⟨false, 0, [.connectCall, .selectCall, .fetchCall, .discSource,
                        .logErr (.runFailed e)]⟩
          | .ok _ => ⟨true, 0, [.connectCall, .selectCall, .fetchCall, .discSource]⟩
        else
          if dryRun then
            runTail b true [.connectCall, .selectCall, .fetchCall] (runLoop b true msgs)
          else
            match b.jiraConnect with
            | .error e =>
              ⟨false, 0, [.connectCall, .selectCall, .fetchCall, .jiraConnectCall,
                          .logErr (.runFailed e)]⟩
            | .ok false =>
              match b.disconnectSource with
              | .error e =>
                ⟨false, 0, [.connectCall, .selectCall, .fetchCall, .jiraConnectCall,
                            .logErr .jiraConnectFailed, .discSource, .logErr (.runFailed e)]⟩
              | .ok _ =>
                ⟨false, 0, [.connectCall, .selectCall, .fetchCall, .jiraConnectCall,
                            .logErr .jiraConnectFailed, .discSource]⟩
            | .ok true =>
              runTail b false
                [.connectCall, .selectCall, .fetchCall, .jiraConnectCall]
                (runLoop b false msgs)

/-! ## Basic dictionary lemmas -/

theorem getKey?_setKey_same (d : JiraDict) (k : Str) (v : PyVal) :
    getKey? (setKey d k v) k = some v := by
  induction d with
  | nil => simp [setKey, getKey?]
  | cons kv rest ih =>
    obtain ⟨k', v'⟩ := kv
    by_cases h : k' = k
    · simp [setKey, getKey?, h]
    · simp [setKey, getKey?, h, ih]

theorem getKey?_setKey_other (d : JiraDict) (k k' : Str) (v : PyVal) (h : k' ≠ k) :
    getKey? (setKey d k v) k' = getKey? d k' := by
  induction d with
  | nil => simp [setKey, getKey?, Ne.symm h]
  | cons kv rest ih =>
    obtain ⟨k0, v0⟩ := kv
    by_cases h0 : k0 = k
    · subst h0
      simp [setKey, getKey?, Ne.symm h]
    · simp only [setKey, if_neg h0, getKey?]
      by_cases h1 : k0 = k'
      · simp [h1]
      · simp [h1, ih]

theorem lookup_mem {α β : Type} [BEq α] [LawfulBEq α] {l : List (α × β)} {k : α} {v : β}
    (h : l.lookup k = some v) : (k, v) ∈ l := by
  induction l with
  | nil => simp [List.lookup] at h
  | cons kv rest ih =>
    obtain ⟨k0, v0⟩ := kv
    by_cases h0 : k = k0
    · subst h0
      simp [List.lookup] at h
      simp [h]
    · have hb : (k == k0) = false := by simp [h0]
      simp [List.lookup, hb] at h
      exact List.mem_cons_of_mem _ (ih h)

/-- After the field-mapping pass, each key holds its previous value or a
truthy value taken from the message. -/
theorem applyFieldMappings_getKey (e : EmailData) (k : Str) :
    ∀ (maps : List (Str × Str)) (d : JiraDict),
      getKey? (applyFieldMappings e maps d) k = getKey? d k ∨
      ∃ src v, e.getVal src = some v ∧ v.truthy = true ∧
        getKey? (applyFieldMappings e maps d) k = some v := by
  intro maps
  induction maps with
  | nil => intro d; left; rfl
  | cons st rest ih =>
    intro d
    obtain ⟨src, tgt⟩ := st
    simp only [applyFieldMappings]
    cases hv : e.getVal src with
    | none => exact ih d
    | some v =>
      by_cases ht : v.truthy
      · simp only [ht, if_true]
        rcases ih (setKey d tgt v) with h | h
        · by_cases hk : k = tgt
          · subst hk
            right
            exact ⟨src, v, hv, ht, by rw [h, getKey?_setKey_same]⟩
          · left
            rw [h, getKey?_setKey_other _ _ _ _ hk]
        · right; exact h
      · simp only [ht, if_false]
        exact ih d

/-! ## Totality of extraction when every stored pattern is compilable -/

theorem subAllE_ok {ps : List (Str × RawPattern)}
    (h : ∀ kv ∈ ps, kv.2 ≠ RawPattern.invalid) (s : Str) :
    ∃ s', subAllE ps s = .ok s' := by
  induction ps generalizing s with
  | nil => exact ⟨s, rfl⟩
  | cons kv rest ih =>
    obtain ⟨nm, rp⟩ := kv
    have hhd : rp ≠ RawPattern.invalid := h (nm, rp) (List.mem_cons_self _ _)
    have htl : ∀ kv ∈ rest, kv.2 ≠ RawPattern.invalid :=
      fun kv hm => h kv (List.mem_cons_of_mem _ hm)
    cases rp with
    | invalid => exact absurd rfl hhd
    | empty => simpa [subAllE, reSubR] using ih htl s
    | valid p => simpa [subAllE, reSubR] using ih htl (reSub p s)

theorem cleanBody_ok {p : EmailParser}
    (h : ∀ kv ∈ p.patterns, kv.2 ≠ RawPattern.invalid) (s : Str) :
    ∃ s', cleanBody p s = .ok s' := by
  obtain ⟨s', hs⟩ := subAllE_ok h s
  exact ⟨postClean s', by simp [cleanBody, hs]⟩

theorem getDescription_ok {p : EmailParser}
    (h : ∀ kv ∈ p.patterns, kv.2 ≠ RawPattern.invalid) (e : EmailData) :
    ∃ s, getDescription p e = .ok s := by
  obtain ⟨s', hs⟩ := cleanBody_ok h
    (if (e.body.getD []).isEmpty && !(e.html_body.getD []).isEmpty then e.html_body.getD []
     else e.body.getD [])
  exact ⟨str "\nFrom: " ++ e.sender.getD (str "Unknown") ++ str "\nDate: "
      ++ e.date.getD (str "Unknown") ++ str "\n\n" ++ s' ++ str "\n",
    by simp only [getDescription]; rw [hs]⟩

theorem extractField_ok {p : EmailParser}
    (h : ∀ kv ∈ p.patterns, kv.2 ≠ RawPattern.invalid) (t n : Str) :
    ∃ v, extractField p t n = .ok v := by
  by_cases ht : t = []
  · exact ⟨none, by unfold extractField; rw [if_pos ht]⟩
  · cases hl : p.patterns.lookup n with
    | none => exact ⟨none, by unfold extractField; rw [if_neg ht, hl]⟩
    | some rp =>
      cases rp with
      | invalid => exact absurd rfl (h _ (lookup_mem hl))
      | empty => exact ⟨none, by unfold extractField; rw [if_neg ht, hl]⟩
      | valid pat =>
        have hext : extractField p t n = (match reSearch pat t with
            | none => Except.ok none
            | some m => if groupOf t m ≠ [] then Except.ok (some (pyStrip (groupOf t m)))
                        else Except.ok none) := by
          unfold extractField
          rw [if_neg ht, hl]
        rw [hext]
        cases hm : reSearch pat t with
        | none => exact ⟨none, rfl⟩
        | some m =>
          by_cases hg : groupOf t m ≠ []
          · exact ⟨some (pyStrip (groupOf t m)), by simp [hg]⟩
          · exact ⟨none, by simp [hg]⟩

theorem extractListField_ok {p : EmailParser}
    (h : ∀ kv ∈ p.patterns, kv.2 ≠ RawPattern.invalid) (t n : Str) :
    ∃ v, extractListField p t n = .ok v := by
  obtain ⟨v, hv⟩ := extractField_ok h t n
  unfold extractListField
  rw [hv]
  cases v with
  | none => exact ⟨[], rfl⟩
  | some s =>
    by_cases hs : s = []
    · exact ⟨[], by simp [hs]⟩
    · exact ⟨splitCommaClean s, by simp [hs]⟩

theorem prePayload_ok {p : EmailParser}
    (h : ∀ kv ∈ p.patterns, kv.2 ≠ RawPattern.invalid) (e : EmailData) :
    ∃ d, prePayload p e = .ok d := by
  obtain ⟨desc, hdesc⟩ := getDescription_ok h e
  obtain ⟨v1, h1⟩ := extractField_ok h (e.body.getD []) (str "issue_type")
  obtain ⟨v2, h2⟩ := extractField_ok h (e.body.getD []) (str "priority")
  obtain ⟨v3, h3⟩ := extractListField_ok h (e.body.getD []) (str "components")
  obtain ⟨v4, h4⟩ := extractListField_ok h (e.body.getD []) (str "labels")
  obtain ⟨v5, h5⟩ := extractField_ok h (e.body.getD []) (str "assignee")
  cases hres : prePayload p e with
  | ok d => exact ⟨d, rfl⟩
  | error exc =>
    exfalso
    unfold prePayload at hres
    simp only [bind, Except.bind, pure, Except.pure, hdesc, h1, h2, h3, h4, h5] at hres
    exact Except.noConfusion hres

theorem parseEmail_ok {p : EmailParser}
    (h : ∀ kv ∈ p.patterns, kv.2 ≠ RawPattern.invalid) (e : EmailData) :
    ∃ d, parseEmail p e = .ok d := by
  obtain ⟨d, hd⟩ := prePayload_ok h e
  exact ⟨applyFieldMappings e p.field_mappings d, by simp [parseEmail, hd]⟩

/-! ## The payload fields before and after mapping -/

theorem getDescription_ne_nil (p : EmailParser) (e : EmailData) (desc : Str)
    (h : getDescription p e = .ok desc) : desc ≠ [] := by
  simp only [getDescription] at h
  cases hc : cleanBody p
      (if (e.body.getD []).isEmpty && !(e.html_body.getD []).isEmpty then e.html_body.getD []
       else e.body.getD []) with
  | error exc => rw [hc] at h; exact Except.noConfusion h
  | ok c =>
    rw [hc] at h
    injection h with h
    subst h
    simp [str]

theorem prePayload_fields (p : EmailParser) (e : EmailData) (d : JiraDict)
    (hok : prePayload p e = .ok d) :
    getKey? d (str "summary") = some (.pstr (getSummary p e)) ∧
    (∃ ds, getKey? d (str "description") = some (.pstr ds) ∧ ds ≠ []) ∧
    (∃ it, getKey? d (str "issue_type") = some (.pstr it) ∧
      (it = p.default_issue_type ∨
       (extractField p (e.body.getD []) (str "issue_type") = .ok (some it) ∧ it ≠ []))) ∧
    (∃ pr, getKey? d (str "priority") = some (.pstr pr) ∧
      (pr = p.default_priority ∨
       (extractField p (e.body.getD []) (str "priority") = .ok (some pr) ∧ pr ≠ []))) := by
  unfold prePayload at hok
  cases hdesc : getDescription p e with
  | error exc => simp [hdesc, bind, Except.bind] at hok
  | ok desc =>
  cases h1 : extractField p (e.body.getD []) (str "issue_type") with
  | error exc => simp [hdesc, h1, bind, Except.bind] at hok
  | ok v1 =>
  cases h2 : extractField p (e.body.getD []) (str "priority") with
  | error exc => simp [hdesc, h1, h2, bind, Except.bind] at hok
  | ok v2 =>
  cases h3 : extractListField p (e.body.getD []) (str "components") with
  | error exc => simp [hdesc, h1, h2, h3, bind, Except.bind] at hok
  | ok v3 =>
  cases h4 : extractListField p (e.body.getD []) (str "labels") with
  | error exc => simp [hdesc, h1, h2, h3, h4, bind, Except.bind] at hok
  | ok v4 =>
  cases h5 : extractField p (e.body.getD []) (str "assignee") with
  | error exc => simp [hdesc, h1, h2, h3, h4, h5, bind, Except.bind] at hok
  | ok v5 =>
  simp only [hdesc, h1, h2, h3, h4, h5, bind, Except.bind, pure, Except.pure,
    Except.ok.injEq] at hok
  subst hok
  -- name the base dictionary and push `getKey?` through the updates
  refine ⟨?_, ⟨desc, ?_, getDescription_ne_nil p e desc hdesc⟩, ?_, ?_⟩
  all_goals
    rcases v1 with _ | s1 <;> rcases v2 with _ | s2 <;> rcases v5 with _ | s5 <;>
    [skip; skip; skip; skip; skip; skip; skip; skip] <;>
    first
    | (simp only []
       repeat' split
       all_goals
         simp_all [getKey?_setKey_same, getKey?_setKey_other, getKey?, str])

theorem getSummary_ne_nil (p : EmailParser) (e : EmailData)
    (hsub : e.subject = none ∨ e.subject ≠ some [] ∨ p.subject_prefix ≠ []) :
    getSummary p e ≠ [] := by
  unfold getSummary
  by_cases hp : p.subject_prefix ≠ []
  · rw [if_pos hp]
    intro hcontra
    exact hp (List.append_eq_nil.mp (List.append_eq_nil.mp hcontra).1).1
  · rw [if_neg hp]
    rcases hsub with h | h | h
    · simp [h, str]
    · cases hs : e.subject with
      | none => simp [str]
      | some s =>
        simp only [Option.getD_some]
        intro hcontra
        subst hcontra
        exact h (by rw [hs])
    · exact absurd h hp

/-- Glue: `parse_email` is the mapping pass applied to the pre-mapping
payload. -/
theorem parseEmail_eq (p : EmailParser) (e : EmailData) (d : JiraDict)
    (hok : parseEmail p e = .ok d) :
    ∃ pd, prePayload p e = .ok pd ∧ d = applyFieldMappings e p.field_mappings pd := by
  unfold parseEmail at hok
  cases hp : prePayload p e with
  | error exc => rw [hp] at hok; exact Except.noConfusion hok
  | ok pd =>
    rw [hp] at hok
    injection hok with hok
    exact ⟨pd, rfl, hok.symm⟩

theorem pstr_truthy {s : Str} (h : s ≠ []) : (PyVal.pstr s).truthy = true := by
  simp [PyVal.truthy, h]

/-- **C3 (amended).** For every message record, the payload produced by
`parse_email` has truthy (non-empty) `summary`, `description`,
`issue_type` and `priority` values, provided the configured defaults are
non-empty and the subject is absent, non-empty, or accompanied by a
non-empty configured prefix; `issue_type` and `priority` hold the
pattern-extracted value, the configured default, or a field-mapping
override. -/
theorem c3_payload_fields_nonempty (p : EmailParser) (e : EmailData) (d : JiraDict)
    (hit : p.default_issue_type ≠ [])
    (hpr : p.default_priority ≠ [])
    (hsub : e.subject = none ∨ e.subject ≠ some [] ∨ p.subject_prefix ≠ [])
    (hok : parseEmail p e = .ok d) :
    (∃ v, getKey? d (str "summary") = some v ∧ v.truthy = true) ∧
    (∃ v, getKey? d (str "description") = some v ∧ v.truthy = true) ∧
    (∃ v, getKey? d (str "issue_type") = some v ∧ v.truthy = true ∧
      (v = .pstr p.default_issue_type ∨
       (∃ s, v = .pstr s ∧ extractField p (e.body.getD []) (str "issue_type") = .ok (some s)) ∨
       (∃ src, e.getVal src = some v))) ∧
    (∃ v, getKey? d (str "priority") = some v ∧ v.truthy = true ∧
      (v = .pstr p.default_priority ∨
       (∃ s, v = .pstr s ∧ extractField p (e.body.getD []) (str "priority") = .ok (some s)) ∨
       (∃ src, e.getVal src = some v))) := by
  obtain ⟨pd, hpd, hd⟩ := parseEmail_eq p e d hok
  obtain ⟨hsum, ⟨ds, hds, hdsne⟩, ⟨it, hitk, hitor⟩, ⟨pr, hprk, hpror⟩⟩ :=
    prePayload_fields p e pd hpd
  subst hd
  refine ⟨?_, ?_, ?_, ?_⟩
  · rcases applyFieldMappings_getKey e (str "summary") p.field_mappings pd with h | ⟨src, v, _, ht, h⟩
    · exact ⟨_, h.trans hsum, pstr_truthy (getSummary_ne_nil p e hsub)⟩
    · exact ⟨v, h, ht⟩
  · rcases applyFieldMappings_getKey e (str "description") p.field_mappings pd with h | ⟨src, v, _, ht, h⟩
    · exact ⟨_, h.trans hds, pstr_truthy hdsne⟩
    · exact ⟨v, h, ht⟩
  · rcases applyFieldMappings_getKey e (str "issue_type") p.field_mappings pd with h | ⟨src, v, hsrc, ht, h⟩
    · rcases hitor with hdef | ⟨hext, hne⟩
      · exact ⟨_, h.trans hitk, pstr_truthy (hdef ▸ hit), Or.inl (by rw [hdef])⟩
      · exact ⟨_, h.trans hitk, pstr_truthy hne, Or.inr (Or.inl ⟨it, rfl, hext⟩)⟩
    · exact ⟨v, h, ht, Or.inr (Or.inr ⟨src, hsrc⟩)⟩
  · rcases applyFieldMappings_getKey e (str "priority") p.field_mappings pd with h | ⟨src, v, hsrc, ht, h⟩
    · rcases hpror with hdef | ⟨hext, hne⟩
      · exact ⟨_, h.trans hprk, pstr_truthy (hdef ▸ hpr), Or.inl (by rw [hdef])⟩
      · exact ⟨_, h.trans hprk, pstr_truthy hne, Or.inr (Or.inl ⟨pr, rfl, hext⟩)⟩
    · exact ⟨v, h, ht, Or.inr (Or.inr ⟨src, hsrc⟩)⟩

/-- **C3 counterexample.** The claim's unconditional "non-empty summary"
fails on the code: a message whose subject key is present but empty (with
no configured subject prefix) produces an empty summary — `dict.get`
substitutes the placeholder only when the key is absent, not when it is
empty. -/
theorem c3_counterexample :
    ∃ d, parseEmail (mkEmailParser ⟨none, none, none, none, none⟩)
        ⟨str "1", some [], none, none, none, none, none⟩ = Except.ok d ∧
      getKey? d (str "summary") = some (PyVal.pstr []) :=
  ⟨_, rfl, rfl⟩

/-- A concrete message for the C3 witness. -/
def e3witness : EmailData :=
  ⟨str "1", some (str "S"), none, none, none, none, none⟩

/-- The payload `parse_email` produces for `e3witness` under the default
configuration. -/
def d3witness : JiraDict :=
  [(str "summary", .pstr (str "S")),
   (str "description", .pstr (str "\nFrom: Unknown\nDate: Unknown\n\n\n")),
   (str "issue_type", .pstr (str "Story")),
   (str "priority", .pstr (str "Medium")),
   (str "labels", .plist []),
   (str "components", .plist []),
   (str "assignee", .pnone),
   (str "attachments", .patts [])]

/-- **C3 witness.** The amended theorem applied to a concrete message. -/
theorem c3_payload_fields_nonempty_witness :
    (∃ v, getKey? (d3witness) (str "summary") = some v ∧ v.truthy = true) ∧
    (∃ v, getKey? (d3witness) (str "description") = some v ∧ v.truthy = true) ∧
    (∃ v, getKey? (d3witness) (str "issue_type") = some v ∧ v.truthy = true ∧
      (v = .pstr (mkEmailParser ⟨none, none, none, none, none⟩).default_issue_type ∨
       (∃ s, v = .pstr s ∧
         extractField (mkEmailParser ⟨none, none, none, none, none⟩)
           ((e3witness).body.getD []) (str "issue_type") = .ok (some s)) ∨
       (∃ src, (e3witness).getVal src = some v))) ∧
    (∃ v, getKey? (d3witness) (str "priority") = some v ∧ v.truthy = true ∧
      (v = .pstr (mkEmailParser ⟨none, none, none, none, none⟩).default_priority ∨
       (∃ s, v = .pstr s ∧
         extractField (mkEmailParser ⟨none, none, none, none, none⟩)
           ((e3witness).body.getD []) (str "priority") = .ok (some s)) ∨
       (∃ src, (e3witness).getVal src = some v))) :=
  c3_payload_fields_nonempty (mkEmailParser ⟨none, none, none, none, none⟩)
    e3witness d3witness (by decide) (by decide) (by decide) (by with_unfolding_all rfl)

/-- **C4 (amended).** Extraction never raises for malformed or missing
fields in the message: whenever every stored pattern is compilable,
`parse_email` succeeds on every message, absent fields resolving to
defaults or empty containers.  However, a malformed pattern is *not* a
construction-time error: `EmailParser.__init__` stores pattern strings
without compiling them, so `re.error` surfaces at extraction time (see
the counterexample). -/
theorem c4_extraction_total_when_patterns_compile (cfg : ParserConfig) (e : EmailData)
    (h : ∀ kv ∈ (mkEmailParser cfg).patterns, kv.2 ≠ RawPattern.invalid) :
    ∃ d, parseEmail (mkEmailParser cfg) e = .ok d :=
  parseEmail_ok h e

/-- **C4 counterexample.** With a non-compilable custom pattern,
`EmailParser` construction succeeds (the malformed pattern is stored
as-is), and the compilation error is raised by `parse_email` — i.e. at
extraction time, contradicting "if EmailParser construction succeeds,
extraction with the configured patterns cannot raise a
pattern-compilation error". -/
theorem c4_counterexample :
    (mkEmailParser ⟨none, none, none, some [(str "epic_link", RawPattern.invalid)], none⟩).patterns.lookup
        (str "epic_link") = some RawPattern.invalid ∧
    parseEmail (mkEmailParser ⟨none, none, none, some [(str "epic_link", RawPattern.invalid)], none⟩)
        ⟨str "1", some (str "S"), none, none, some (str "hello"), none, none⟩
      = Except.error Exc.regexError :=
  ⟨rfl, by with_unfolding_all rfl⟩

/-- **C4 witness.** The amended theorem applied to the default
configuration and a concrete message. -/
theorem c4_extraction_total_witness :
    ∃ d, parseEmail (mkEmailParser ⟨none, none, none, none, none⟩)
        ⟨str "2", none, none, none, some (str "Type: Bug"), none, none⟩ = .ok d :=
  c4_extraction_total_when_patterns_compile ⟨none, none, none, none, none⟩
    ⟨str "2", none, none, none, some (str "Type: Bug"), none, none⟩ (by decide)

/-! ## Field mappings (C9) -/

/-- `email_field in email_data and email_data[email_field]` as a boolean:
is the mapping with source `s` applicable to message `e`? -/
def appB (e : EmailData) (s : Str) : Bool :=
  match e.getVal s with
  | some v => v.truthy
  | none => false

theorem applyFieldMappings_untargeted (e : EmailData) (k : Str) :
    ∀ (maps : List (Str × Str)) (d : JiraDict),
      (∀ st ∈ maps, st.2 = k → appB e st.1 = false) →
      getKey? (applyFieldMappings e maps d) k = getKey? d k := by
  intro maps
  induction maps with
  | nil => intro d _; rfl
  | cons st rest ih =>
    intro d hno
    obtain ⟨src, tgt⟩ := st
    have htl : ∀ st ∈ rest, st.2 = k → appB e st.1 = false :=
      fun st hm => hno st (List.mem_cons_of_mem _ hm)
    simp only [applyFieldMappings]
    cases hv : e.getVal src with
    | none => exact ih d htl
    | some v =>
      by_cases ht : v.truthy
      · have hkt : tgt ≠ k := by
          intro hkk
          have hfalse := hno (src, tgt) (List.mem_cons_self _ _) hkk
          simp only [appB, hv] at hfalse
          simp [hfalse] at ht
        simp only [ht, if_true]
        rw [ih (setKey d tgt v) htl, getKey?_setKey_other _ _ _ _ (Ne.symm hkt)]
      · simp only [ht, if_false]
        exact ih d htl

theorem applyFieldMappings_last_wins (e : EmailData) :
    ∀ (l1 : List (Str × Str)) (src tgt : Str) (l2 : List (Str × Str))
      (d : JiraDict) (v : PyVal),
      e.getVal src = some v → v.truthy = true →
      (∀ st ∈ l2, st.2 = tgt → appB e st.1 = false) →
      getKey? (applyFieldMappings e (l1 ++ (src, tgt) :: l2) d) tgt = some v := by
  intro l1
  induction l1 with
  | nil =>
    intro src tgt l2 d v hv ht hno
    simp only [List.nil_append, applyFieldMappings, hv, ht, if_true]
    rw [applyFieldMappings_untargeted e tgt l2 _ hno, getKey?_setKey_same]
  | cons st rest ih =>
    intro src tgt l2 d v hv ht hno
    obtain ⟨s0, t0⟩ := st
    simp only [List.cons_append, applyFieldMappings]
    cases hv0 : e.getVal s0 with
    | none => exact ih src tgt l2 d v hv ht hno
    | some v0 =>
      by_cases ht0 : v0.truthy
      · simp only [ht0, if_true]
        exact ih src tgt l2 (setKey d t0 v0) v hv ht hno
      · simp only [ht0, if_false]
        exact ih src tgt l2 d v hv ht hno

/-- **C9 (amended).** After `parse_email`, for every configured mapping
`(src -> tgt)` that is applicable (the message carries a truthy value for
`src`) and is the *last* applicable mapping targeting `tgt`, the payload's
`tgt` equals the message's `src` value; since the mappings are applied in
order, when several applicable mappings share a target the last one wins.
Fields not targeted by any applicable mapping keep their
extraction-derived (pre-mapping) values. -/
theorem c9_field_mappings_last_wins (p : EmailParser) (e : EmailData) (d : JiraDict)
    (hok : parseEmail p e = .ok d) :
    (∀ l1 src tgt l2 v,
        p.field_mappings = l1 ++ (src, tgt) :: l2 →
        e.getVal src = some v → v.truthy = true →
        (∀ st ∈ l2, st.2 = tgt → appB e st.1 = false) →
        getKey? d tgt = some v) ∧
    (∀ k pd, prePayload p e = .ok pd →
        (∀ st ∈ p.field_mappings, st.2 = k → appB e st.1 = false) →
        getKey? d k = getKey? pd k) := by
  obtain ⟨pd0, hpd0, hd⟩ := parseEmail_eq p e d hok
  subst hd
  constructor
  · intro l1 src tgt l2 v hmaps hv ht hno
    rw [hmaps]
    exact applyFieldMappings_last_wins e l1 src tgt l2 pd0 v hv ht hno
  · intro k pd hpd hno
    rw [hpd0] at hpd
    injection hpd with hpd
    subst hpd
    exact applyFieldMappings_untargeted e k p.field_mappings pd0 hno

/-- **C9 counterexample.** Two applicable mappings targeting the same
field: `subject -> priority` then `sender -> priority`.  The message
carries the truthy value "High" for `subject`, yet the final payload's
`priority` is "bob" (the later mapping's value), so "for every configured
mapping, the final targetField equals that mapping's source value" fails
as stated. -/
theorem c9_counterexample :
    ∃ d, parseEmail (mkEmailParser ⟨none, none, none, none,
        some [(str "subject", str "priority"), (str "sender", str "priority")]⟩)
        ⟨str "1", some (str "High"), some (str "bob"), none, none, none, none⟩ = Except.ok d ∧
      EmailData.getVal ⟨str "1", some (str "High"), some (str "bob"), none, none, none, none⟩
        (str "subject") = some (PyVal.pstr (str "High")) ∧
      (PyVal.pstr (str "High")).truthy = true ∧
      getKey? d (str "priority") = some (PyVal.pstr (str "bob")) ∧
      ¬ getKey? d (str "priority") = some (PyVal.pstr (str "High")) :=
  ⟨_, rfl, rfl, rfl, rfl, by decide⟩

/-- A concrete configuration with one field mapping for the C9 witness. -/
def cfg9witness : ParserConfig :=
  ⟨none, none, none, none, some [(str "sender", str "summary")]⟩

/-- A concrete message for the C9 witness. -/
def e9witness : EmailData :=
  ⟨str "1", some (str "S"), some (str "bob"), none, none, none, none⟩

/-- The payload `parse_email` produces for `e9witness` under
`cfg9witness`: the mapped `sender` value overwrites the summary. -/
def d9witness : JiraDict :=
  [(str "summary", .pstr (str "bob")),
   (str "description", .pstr (str "\nFrom: bob\nDate: Unknown\n\n\n")),
   (str "issue_type", .pstr (str "Story")),
   (str "priority", .pstr (str "Medium")),
   (str "labels", .plist []),
   (str "components", .plist []),
   (str "assignee", .pnone),
   (str "attachments", .patts [])]

/-- **C9 witness.** The amended theorem applied to a concrete parser,
message and payload. -/
theorem c9_field_mappings_last_wins_witness :
    (∀ l1 src tgt l2 v,
        (mkEmailParser cfg9witness).field_mappings = l1 ++ (src, tgt) :: l2 →
        EmailData.getVal e9witness src = some v → v.truthy = true →
        (∀ st ∈ l2, st.2 = tgt → appB e9witness st.1 = false) →
        getKey? d9witness tgt = some v) ∧
    (∀ k pd, prePayload (mkEmailParser cfg9witness) e9witness = .ok pd →
        (∀ st ∈ (mkEmailParser cfg9witness).field_mappings, st.2 = k → appB e9witness st.1 = false) →
        getKey? d9witness k = getKey? pd k) :=
  c9_field_mappings_last_wins (mkEmailParser cfg9witness) e9witness d9witness
    (by with_unfolding_all rfl)

/-! ## Trace structure of the run cycle -/

theorem uploadAtts_events (b : Behavior) (mid key : Str) (l : List Attachment) :
    ∀ ev ∈ (uploadAtts b mid key l).1, ∃ f, ev = .attachCall mid f := by
  induction l with
  | nil => intro ev hev; simp [uploadAtts] at hev
  | cons a rest ih =>
    intro ev hev
    cases hc : a.content with
    | none => simp [uploadAtts, hc] at hev
    | some data =>
      cases hadd : b.addAttachment key data a.filename with
      | error e =>
        simp only [uploadAtts, hc, hadd] at hev
        simp at hev
        exact ⟨a.filename, hev⟩
      | ok r =>
        simp only [uploadAtts, hc, hadd] at hev
        simp at hev
        rcases hev with h | h
        · exact ⟨a.filename, h⟩
        · exact ih ev h

/-- Every event a message's processing emits is a parse, create, attach or
mark-read call tagged with that message's identifier, or an error log. -/
theorem processMsg_events (b : Behavior) (dryRun : Bool) (m : EmailData) :
    ∀ ev ∈ (processMsg b dryRun m).1,
      ev = .parseCall m.id ∨ ev = .createCall m.id ∨
      (∃ f, ev = .attachCall m.id f) ∨ ev = .markReadCall m.id ∨
      ∃ l, ev = .logErr l := by
  intro ev hev
  unfold processMsg at hev
  cases hp : b.parse m with
  | error e => simp only [hp] at hev; simp at hev; rcases hev with h | h <;> simp [h]
  | ok jd =>
  simp only [hp] at hev
  cases hs : getKey? jd (str "summary") with
  | none => simp only [hs] at hev; simp at hev; rcases hev with h | h <;> simp [h]
  | some sv =>
  simp only [hs] at hev
  cases dryRun with
  | true =>
    rw [if_pos rfl] at hev
    cases hm : b.markRead m.id with
    | error e => simp only [hm] at hev; simp at hev; rcases hev with h | h | h <;> simp [h]
    | ok r => simp only [hm] at hev; simp at hev; rcases hev with h | h <;> simp [h]
  | false =>
  rw [if_neg Bool.false_ne_true] at hev
  cases ha : createArgsOf jd with
  | error e => simp only [ha] at hev; simp at hev; rcases hev with h | h <;> simp [h]
  | ok args =>
  simp only [ha] at hev
  cases hc : b.createIssue args with
  | error e => simp only [hc] at hev; simp at hev; rcases hev with h | h | h <;> simp [h]
  | ok k =>
  simp only [hc] at hev
  cases k with
  | none => simp at hev; rcases hev with h | h | h <;> simp [h]
  | some key =>
  simp only [] at hev
  by_cases hk : key = []
  · rw [if_pos hk] at hev
    simp at hev; rcases hev with h | h | h <;> simp [h]
  · rw [if_neg hk] at hev
    cases hat : getKey? jd (str "attachments") with
    | none => simp only [hat] at hev; simp at hev; rcases hev with h | h | h <;> simp [h]
    | some v =>
    simp only [hat] at hev
    cases v with
    | pstr sx => simp at hev; rcases hev with h | h | h <;> simp [h]
    | plist lx => simp at hev; rcases hev with h | h | h <;> simp [h]
    | pnone => simp at hev; rcases hev with h | h | h <;> simp [h]
    | patts l =>
    simp only [] at hev
    cases hup : (uploadAtts b m.id key l).2 with
    | some e =>
      simp only [hup] at hev
      simp at hev
      rcases hev with h | h | h | h
      · simp [h]
      · simp [h]
      · obtain ⟨f, hf⟩ := uploadAtts_events b m.id key l ev h
        exact Or.inr (Or.inr (Or.inl ⟨f, hf⟩))
      · simp [h]
    | none =>
      simp only [hup] at hev
      cases hm : b.markRead m.id with
      | error e =>
        simp only [hm] at hev
        simp at hev
        rcases hev with h | h | h | h | h
        · simp [h]
        · simp [h]
        · obtain ⟨f, hf⟩ := uploadAtts_events b m.id key l ev h
          exact Or.inr (Or.inr (Or.inl ⟨f, hf⟩))
        · simp [h]
        · simp [h]
      | ok r =>
        simp only [hm] at hev
        simp at hev
        rcases hev with h | h | h | h
        · simp [h]
        · simp [h]
        · obtain ⟨f, hf⟩ := uploadAtts_events b m.id key l ev h
          exact Or.inr (Or.inr (Or.inl ⟨f, hf⟩))
        · simp [h]

theorem markRead_not_mem_uploadAtts (b : Behavior) (mid key : Str) (l : List Attachment)
    (i : Str) : Ev.markReadCall i ∉ (uploadAtts b mid key l).1 := by
  intro h
  obtain ⟨f, hf⟩ := uploadAtts_events b mid key l _ h
  exact Ev.noConfusion hf

/-- The three structural facts about one message's processing: the trace
starts with the parse call; the mark-read call happens exactly when the
message counts as succeeded; a failed message always leaves an error-log
record. -/
theorem processMsg_main (b : Behavior) (d : Bool) (m : EmailData) :
    (∃ rest, (processMsg b d m).1 = .parseCall m.id :: rest) ∧
    ((.markReadCall m.id ∈ (processMsg b d m).1) ↔ (processMsg b d m).2 = true) ∧
    ((processMsg b d m).2 = false → ∃ l, .logErr l ∈ (processMsg b d m).1) := by
  cases hp : b.parse m with
  | error e =>
    simp only [processMsg, hp]
    exact ⟨⟨_, rfl⟩, by simp, fun _ => ⟨LogMsg.perMessage e, by simp⟩⟩
  | ok jd =>
  cases hs : getKey? jd (str "summary") with
  | none =>
    simp only [processMsg, hp, hs]
    exact ⟨⟨_, rfl⟩, by simp,
      fun _ => ⟨LogMsg.perMessage (Exc.keyError (str "summary")), by simp⟩⟩
  | some sv =>
  cases d with
  | true =>
    cases hm : b.markRead m.id with
    | error e =>
      simp only [processMsg, hp, hs, hm, eq_self_iff_true, if_true]
      exact ⟨⟨_, rfl⟩, by simp, by simp⟩
    | ok r =>
      simp only [processMsg, hp, hs, hm, eq_self_iff_true, if_true]
      exact ⟨⟨_, rfl⟩, by simp, by simp⟩
  | false =>
  cases ha : createArgsOf jd with
  | error e =>
    simp only [processMsg, hp, hs, ha, Bool.false_eq_true, if_false]
    exact ⟨⟨_, rfl⟩, by simp, fun _ => ⟨LogMsg.perMessage e, by simp⟩⟩
  | ok args =>
  cases hc : b.createIssue args with
  | error e =>
    simp only [processMsg, hp, hs, ha, hc, Bool.false_eq_true, if_false]
    exact ⟨⟨_, rfl⟩, by simp, fun _ => ⟨LogMsg.perMessage e, by simp⟩⟩
  | ok k =>
  cases k with
  | none =>
    simp only [processMsg, hp, hs, ha, hc, Bool.false_eq_true, if_false]
    exact ⟨⟨_, rfl⟩, by simp, fun _ => ⟨LogMsg.createFailed sv, by simp⟩⟩
  | some key =>
  by_cases hk : key = []
  · simp only [processMsg, hp, hs, ha, hc, hk, Bool.false_eq_true, if_false,
      eq_self_iff_true, if_true]
    exact ⟨⟨_, rfl⟩, by simp, fun _ => ⟨LogMsg.createFailed sv, by simp⟩⟩
  · cases hat : getKey? jd (str "attachments") with
    | none =>
      simp only [processMsg, hp, hs, ha, hc, hat, hk, Bool.false_eq_true, if_false]
      exact ⟨⟨_, rfl⟩, by simp,
        fun _ => ⟨LogMsg.perMessage (Exc.keyError (str "attachments")), by simp⟩⟩
    | some v =>
    cases v with
    | pstr sx =>
      simp only [processMsg, hp, hs, ha, hc, hat, hk, Bool.false_eq_true, if_false]
      exact ⟨⟨_, rfl⟩, by simp, fun _ => ⟨LogMsg.perMessage Exc.typeError, by simp⟩⟩
    | plist lx =>
      simp only [processMsg, hp, hs, ha, hc, hat, hk, Bool.false_eq_true, if_false]
      exact ⟨⟨_, rfl⟩, by simp, fun _ => ⟨LogMsg.perMessage Exc.typeError, by simp⟩⟩
    | pnone =>
      simp only [processMsg, hp, hs, ha, hc, hat, hk, Bool.false_eq_true, if_false]
      exact ⟨⟨_, rfl⟩, by simp, fun _ => ⟨LogMsg.perMessage Exc.typeError, by simp⟩⟩
    | patts l =>
    cases hup : (uploadAtts b m.id key l).2 with
    | some e =>
      simp only [processMsg, hp, hs, ha, hc, hat, hup, hk, Bool.false_eq_true, if_false]
      refine ⟨⟨_, rfl⟩, ?_, fun _ => ⟨LogMsg.perMessage e, by simp⟩⟩
      simp [markRead_not_mem_uploadAtts b m.id key l m.id]
    | none =>
      cases hm : b.markRead m.id with
      | error e =>
        simp only [processMsg, hp, hs, ha, hc, hat, hup, hm, hk, Bool.false_eq_true, if_false]
        exact ⟨⟨_, rfl⟩, by simp, by simp⟩
      | ok r =>
        simp only [processMsg, hp, hs, ha, hc, hat, hup, hm, hk, Bool.false_eq_true, if_false]
        exact ⟨⟨_, rfl⟩, by simp, by simp⟩

/-- The per-message loop concatenates the message traces and counts the
succeeded messages. -/
theorem runLoop_spec (b : Behavior) (d : Bool) (msgs : List EmailData) :
    runLoop b d msgs =
      ((msgs.map (fun m => (processMsg b d m).1)).flatten,
       msgs.countP (fun m => (processMsg b d m).2)) := by
  have go : ∀ (l : List EmailData) (acc : List Ev × Nat),
      l.foldl (fun acc m =>
        let r := processMsg b d m
        (acc.1 ++ r.1, acc.2 + (if r.2 then 1 else 0))) acc =
      (acc.1 ++ (l.map (fun m => (processMsg b d m).1)).flatten,
       acc.2 + l.countP (fun m => (processMsg b d m).2)) := by
    intro l
    induction l with
    | nil => intro acc; simp
    | cons m rest ih =>
      intro acc
      simp only [List.foldl_cons, ih, List.map_cons, List.flatten_cons, List.countP_cons,
        Prod.mk.injEq]
      refine ⟨by simp [List.append_assoc], ?_⟩
      by_cases hsucc : (processMsg b d m).2 <;> simp [hsucc] <;> omega
  simpa using go msgs ([], 0)

/-- Events of the Ticket Sink: connecting, creating, attaching,
disconnecting. -/
def isSinkEv : Ev → Bool
  | .jiraConnectCall => true
  | .createCall _ => true
  | .attachCall _ _ => true
  | .discJira => true
  | _ => false

theorem run_nondry_eq (b : Behavior) (msgs : List EmailData)
    (h1 : b.connect = .ok true) (h2 : b.selectMailbox = .ok true)
    (h3 : b.fetchUnread = .ok msgs) (hne : msgs ≠ [])
    (h4 : b.jiraConnect = .ok true) :
    run b false = runTail b false
      [.connectCall, .selectCall, .fetchCall, .jiraConnectCall] (runLoop b false msgs) := by
  cases msgs with
  | nil => exact absurd rfl hne
  | cons m t =>
    simp only [run, h1, h2, h3, h4, List.isEmpty_cons, Bool.false_eq_true, if_false]

theorem run_dry_eq (b : Behavior) (msgs : List EmailData)
    (h1 : b.connect = .ok true) (h2 : b.selectMailbox = .ok true)
    (h3 : b.fetchUnread = .ok msgs) (hne : msgs ≠ []) :
    run b true = runTail b true
      [.connectCall, .selectCall, .fetchCall] (runLoop b true msgs) := by
  cases msgs with
  | nil => exact absurd rfl hne
  | cons m t =>
    simp only [run, h1, h2, h3, List.isEmpty_cons, Bool.false_eq_true, if_false,
      eq_self_iff_true, if_true]

theorem runTail_trace (b : Behavior) (d : Bool) (pre : List Ev) (lp : List Ev × Nat) :
    ∃ suf, (runTail b d pre lp).trace = pre ++ lp.1 ++ suf ∧
      (∀ ev ∈ suf, ev = .discSource ∨ (d = false ∧ ev = .discJira) ∨
        ∃ e, ev = .logErr (.runFailed e)) ∧
      (runTail b d pre lp).succeeded = lp.2 := by
  unfold runTail
  cases hds : b.disconnectSource with
  | error e => exact ⟨_, rfl, by intro ev hev; simp at hev; rcases hev with h | h <;> simp [h], rfl⟩
  | ok u =>
    cases d with
    | true =>
      rw [if_pos rfl]
      exact ⟨_, rfl, by intro ev hev; simp at hev; simp [hev], rfl⟩
    | false =>
      rw [if_neg Bool.false_ne_true]
      cases hdj : b.disconnectJira with
      | error e =>
        exact ⟨_, rfl, by intro ev hev; simp at hev; rcases hev with h | h | h <;> simp [h], rfl⟩
      | ok u' =>
        exact ⟨_, rfl, by intro ev hev; simp at hev; rcases hev with h | h <;> simp [h], rfl⟩

theorem processMsg_dry_events (b : Behavior) (m : EmailData) :
    ∀ ev ∈ (processMsg b true m).1, isSinkEv ev = false := by
  intro ev hev
  cases hp : b.parse m with
  | error e =>
    simp only [processMsg, hp] at hev
    simp at hev; rcases hev with h | h <;> simp [h, isSinkEv]
  | ok jd =>
  cases hs : getKey? jd (str "summary") with
  | none =>
    simp only [processMsg, hp, hs] at hev
    simp at hev; rcases hev with h | h <;> simp [h, isSinkEv]
  | some sv =>
  cases hm : b.markRead m.id with
  | error e =>
    simp only [processMsg, hp, hs, hm, eq_self_iff_true, if_true] at hev
    simp at hev; rcases hev with h | h | h <;> simp [h, isSinkEv]
  | ok r =>
    simp only [processMsg, hp, hs, hm, eq_self_iff_true, if_true] at hev
    simp at hev; rcases hev with h | h <;> simp [h, isSinkEv]

theorem processMsg_dry_succ (b : Behavior) (m : EmailData) :
    (processMsg b true m).2 = true ↔
      ∃ jd, b.parse m = .ok jd ∧ getKey? jd (str "summary") ≠ none := by
  cases hp : b.parse m with
  | error e =>
    simp only [processMsg, hp]
    constructor
    · intro h; exact Bool.noConfusion h
    · rintro ⟨jd, hjd, -⟩; exact Except.noConfusion hjd
  | ok jd =>
  cases hs : getKey? jd (str "summary") with
  | none =>
    simp only [processMsg, hp, hs]
    constructor
    · intro h; exact Bool.noConfusion h
    · rintro ⟨jd', hjd, hne⟩
      injection hjd with hjd
      subst hjd
      exact absurd hs hne
  | some sv =>
  cases hm : b.markRead m.id with
  | error e =>
    simp only [processMsg, hp, hs, hm, eq_self_iff_true, if_true]
    exact ⟨fun _ => ⟨jd, rfl, by simp [hs]⟩, fun _ => trivial⟩
  | ok r =>
    simp only [processMsg, hp, hs, hm, eq_self_iff_true, if_true]
    exact ⟨fun _ => ⟨jd, rfl, by simp [hs]⟩, fun _ => trivial⟩

theorem mem_trace_of_processMsg (b : Behavior) (d : Bool) (msgs : List EmailData)
    (pre : List Ev) (m : EmailData) (hm : m ∈ msgs) (ev : Ev)
    (hev : ev ∈ (processMsg b d m).1) :
    ev ∈ (runTail b d pre (runLoop b d msgs)).trace := by
  obtain ⟨suf, htr, -, -⟩ := runTail_trace b d pre (runLoop b d msgs)
  rw [htr, runLoop_spec]
  refine List.mem_append_left _ (List.mem_append_right _ ?_)
  exact List.mem_flatten.mpr ⟨(processMsg b d m).1, List.mem_map_of_mem _ hm, hev⟩

theorem trace_cases (b : Behavior) (d : Bool) (msgs : List EmailData) (pre : List Ev)
    (ev : Ev) (hev : ev ∈ (runTail b d pre (runLoop b d msgs)).trace) :
    ev ∈ pre ∨ (∃ m ∈ msgs, ev ∈ (processMsg b d m).1) ∨ ev = .discSource ∨
      (d = false ∧ ev = .discJira) ∨ ∃ e, ev = .logErr (.runFailed e) := by
  obtain ⟨suf, htr, hsuf, -⟩ := runTail_trace b d pre (runLoop b d msgs)
  rw [htr, runLoop_spec] at hev
  rcases List.mem_append.mp hev with h | h
  · rcases List.mem_append.mp h with h' | h'
    · exact Or.inl h'
    · obtain ⟨l, hl, hevl⟩ := List.mem_flatten.mp h'
      obtain ⟨m, hmm, rfl⟩ := List.mem_map.mp hl
      exact Or.inr (Or.inl ⟨m, hmm, hevl⟩)
  · rcases hsuf ev h with h' | h' | h'
    · exact Or.inr (Or.inr (Or.inl h'))
    · exact Or.inr (Or.inr (Or.inr (Or.inl h')))
    · exact Or.inr (Or.inr (Or.inr (Or.inr h')))

theorem run_dry_nosink (b : Behavior) : ∀ ev ∈ (run b true).trace, isSinkEv ev = false := by
  intro ev hev
  cases hc : b.connect with
  | error e =>
    simp only [run, hc] at hev
    simp at hev; rcases hev with h | h <;> simp [h, isSinkEv]
  | ok bc =>
  cases bc with
  | false =>
    simp only [run, hc] at hev
    simp at hev; rcases hev with h | h <;> simp [h, isSinkEv]
  | true =>
  cases hsel : b.selectMailbox with
  | error e =>
    simp only [run, hc, hsel] at hev
    simp at hev; rcases hev with h | h | h <;> simp [h, isSinkEv]
  | ok bs =>
  cases bs with
  | false =>
    cases hds : b.disconnectSource with
    | error e =>
      simp only [run, hc, hsel, hds] at hev
      simp at hev; rcases hev with h | h | h | h | h <;> simp [h, isSinkEv]
    | ok u =>
      simp only [run, hc, hsel, hds] at hev
      simp at hev; rcases hev with h | h | h | h <;> simp [h, isSinkEv]
  | true =>
  cases hf : b.fetchUnread with
  | error e =>
    simp only [run, hc, hsel, hf] at hev
    simp at hev; rcases hev with h | h | h | h <;> simp [h, isSinkEv]
  | ok msgs =>
  by_cases hemp : msgs.isEmpty
  · cases hds : b.disconnectSource with
    | error e =>
      simp only [run, hc, hsel, hf, hemp, eq_self_iff_true, if_true, hds] at hev
      simp at hev; rcases hev with h | h | h | h | h <;> simp [h, isSinkEv]
    | ok u =>
      simp only [run, hc, hsel, hf, hemp, eq_self_iff_true, if_true, hds] at hev
      simp at hev; rcases hev with h | h | h | h <;> simp [h, isSinkEv]
  · have hne : msgs ≠ [] := by
      intro hcontra; subst hcontra; simp at hemp
    rw [run_dry_eq b msgs hc hsel hf hne] at hev
    rcases trace_cases b true msgs _ ev hev with h | ⟨m, hmm, hpm⟩ | h | ⟨hfalse, -⟩ | ⟨e, h⟩
    · simp at h; rcases h with h | h | h <;> simp [h, isSinkEv]
    · exact processMsg_dry_events b m ev hpm
    · simp [h, isSinkEv]
    · exact Bool.noConfusion hfalse
    · simp [h, isSinkEv]

/-- **C5.** In every dry-run cycle the Ticket Sink is never touched: no
`connect`, `createTicket`, `addAttachment` or sink disconnect call appears
in the trace of `run` with `dry_run = True`; and (for a cycle whose
connection and fetch succeed, with per-cycle-unique message identifiers,
the extractor returning a payload carrying a `summary` key as
`parse_email` always does) `markRead` is invoked exactly for the messages
that were extracted successfully. -/
theorem c5_dry_run_suppresses_sink (b : Behavior) (msgs : List EmailData)
    (h1 : b.connect = .ok true) (h2 : b.selectMailbox = .ok true)
    (h3 : b.fetchUnread = .ok msgs)
    (hids : (msgs.map EmailData.id).Nodup)
    (hwf : ∀ m jd, b.parse m = .ok jd → getKey? jd (str "summary") ≠ none) :
    (∀ b' : Behavior, ∀ ev ∈ (run b' true).trace, isSinkEv ev = false) ∧
    (∀ m ∈ msgs, (Ev.markReadCall m.id ∈ (run b true).trace ↔ ∃ jd, b.parse m = .ok jd)) := by
  refine ⟨fun b' => run_dry_nosink b', ?_⟩
  intro m hmm
  by_cases hne : msgs = []
  · subst hne; simp at hmm
  · constructor
    · intro hmem
      rw [run_dry_eq b msgs h1 h2 h3 hne] at hmem
      rcases trace_cases b true msgs _ _ hmem with h | ⟨m', hm', hpm⟩ | h | ⟨hf, -⟩ | ⟨e, h⟩
      · simp at h
      · obtain hforms := processMsg_events b true m' _ hpm
        have hid : m'.id = m.id := by
          rcases hforms with h | h | ⟨f, h⟩ | h | ⟨l, h⟩ <;> first
            | exact Ev.noConfusion h
            | (injection h with h'; exact h'.symm)
        have hmeq : m' = m :=
          List.inj_on_of_nodup_map hids hm' hmm hid
        subst hmeq
        have hsucc : (processMsg b true m').2 = true :=
          (processMsg_main b true m').2.1.mp (by rwa [← hid] at hpm)
        obtain ⟨jd, hjd, -⟩ := (processMsg_dry_succ b m').mp hsucc
        exact ⟨jd, hjd⟩
      · exact Ev.noConfusion h
      · exact Bool.noConfusion hf
      · exact Ev.noConfusion h
    · rintro ⟨jd, hjd⟩
      have hsucc : (processMsg b true m).2 = true :=
        (processMsg_dry_succ b m).mpr ⟨jd, hjd, hwf m jd hjd⟩
      have hmem : Ev.markReadCall m.id ∈ (processMsg b true m).1 :=
        (processMsg_main b true m).2.1.mpr hsucc
      rw [run_dry_eq b msgs h1 h2 h3 hne]
      exact mem_trace_of_processMsg b true msgs _ m hmm _ hmem

/-- A concrete message for the C5 witness. -/
def m5witness : EmailData := ⟨str "m1", some (str "S"), none, none, none, none, none⟩

/-- A concrete behavior for the C5 witness: everything succeeds; the
extractor returns a one-key payload. -/
def b5witness : Behavior :=
  { connect := .ok true
    selectMailbox := .ok true
    fetchUnread := .ok [m5witness]
    jiraConnect := .ok true
    parse := fun _ => .ok [(str "summary", .pstr (str "S"))]
    createIssue := fun _ => .ok (some (str "K-1"))
    addAttachment := fun _ _ _ => .ok true
    markRead := fun _ => .ok true
    disconnectSource := .ok ()
    disconnectJira := .ok () }

/-- **C5 witness.** The theorem applied to the concrete dry-run cycle. -/
theorem c5_dry_run_suppresses_sink_witness :
    (∀ b' : Behavior, ∀ ev ∈ (run b' true).trace, isSinkEv ev = false) ∧
    (∀ m ∈ [m5witness],
      (Ev.markReadCall m.id ∈ (run b5witness true).trace ↔
        ∃ jd, b5witness.parse m = .ok jd)) :=
  c5_dry_run_suppresses_sink b5witness [m5witness] rfl rfl rfl (by simp)
    (fun m jd h => by
      injection h with h
      subst h
      simp [getKey?])

theorem jiraConnect_not_in_processMsg (b : Behavior) (d : Bool) (m : EmailData) :
    Ev.jiraConnectCall ∉ (processMsg b d m).1 := by
  intro h
  rcases processMsg_events b d m _ h with h' | h' | ⟨f, h'⟩ | h' | ⟨l, h'⟩ <;>
    exact Ev.noConfusion h'

/-- **C2 (amended).** For every non-dry-run cycle with at least one
fetched message, the sink connection is attempted exactly once, before the
per-message loop (the trace is `connect, select, fetch, jiraConnect`
followed by events among which no further sink connect occurs).  When the
sink connection *returns false*, the cycle aborts with failure, the source
is disconnected, and `markRead` is never invoked.  When the sink
connection *raises*, the cycle aborts with failure and `markRead` is never
invoked, but the outer exception handler returns without disconnecting
the source. -/
theorem c2_sink_connect_once_before_loop (b : Behavior) (msgs : List EmailData)
    (h1 : b.connect = .ok true) (h2 : b.selectMailbox = .ok true)
    (h3 : b.fetchUnread = .ok msgs) (hne : msgs ≠ []) :
    (b.jiraConnect = .ok true →
      ∃ rest, (run b false).trace =
          [.connectCall, .selectCall, .fetchCall, .jiraConnectCall] ++ rest ∧
        Ev.jiraConnectCall ∉ rest) ∧
    (b.jiraConnect = .ok false → b.disconnectSource = .ok () →
      run b false = ⟨false, 0, [.connectCall, .selectCall, .fetchCall, .jiraConnectCall,
        .logErr .jiraConnectFailed, .discSource]⟩) ∧
    (∀ e, b.jiraConnect = .error e →
      run b false = ⟨false, 0, [.connectCall, .selectCall, .fetchCall, .jiraConnectCall,
        .logErr (.runFailed e)]⟩) := by
  obtain ⟨m0, t0, rfl⟩ : ∃ m0 t0, msgs = m0 :: t0 := by
    cases msgs with
    | nil => exact absurd rfl hne
    | cons a t => exact ⟨a, t, rfl⟩
  refine ⟨?_, ?_, ?_⟩
  · intro h4
    rw [run_nondry_eq b _ h1 h2 h3 hne h4]
    obtain ⟨suf, htr, hsuf, -⟩ := runTail_trace b false _ (runLoop b false (m0 :: t0))
    refine ⟨(runLoop b false (m0 :: t0)).1 ++ suf, by rw [htr, List.append_assoc], ?_⟩
    intro hmem
    rcases List.mem_append.mp hmem with h | h
    · rw [runLoop_spec] at h
      obtain ⟨l, hl, hevl⟩ := List.mem_flatten.mp h
      obtain ⟨m, hmm, rfl⟩ := List.mem_map.mp hl
      exact jiraConnect_not_in_processMsg b false m hevl
    · rcases hsuf _ h with h' | ⟨-, h'⟩ | ⟨e, h'⟩ <;> exact Ev.noConfusion h'
  · intro h4 h5
    simp only [run, h1, h2, h3, h4, h5, List.isEmpty_cons, Bool.false_eq_true, if_false]
  · intro e h4
    simp only [run, h1, h2, h3, h4, List.isEmpty_cons, Bool.false_eq_true, if_false]

/-- A concrete behavior for the C2 counterexample: the sink connection
raises. -/
def b2cex : Behavior :=
  { connect := .ok true
    selectMailbox := .ok true
    fetchUnread := .ok [⟨str "m1", some (str "S"), none, none, none, none, none⟩]
    jiraConnect := .error (.other (str "down"))
    parse := fun _ => .ok []
    createIssue := fun _ => .ok none
    addAttachment := fun _ _ _ => .ok true
    markRead := fun _ => .ok true
    disconnectSource := .ok ()
    disconnectJira := .ok () }

/-- **C2 counterexample.** A cycle whose sink connection fails by raising:
the cycle aborts reporting failure and no message is marked read, but the
source is *not* disconnected — refuting the claim's "if that connection
fails ... the source is disconnected" for the raised-error failure mode
of the collaborator contract. -/
theorem c2_counterexample :
    b2cex.connect = .ok true ∧
    run b2cex false = ⟨false, 0, [.connectCall, .selectCall, .fetchCall, .jiraConnectCall,
      .logErr (.runFailed (.other (str "down")))]⟩ ∧
    Ev.discSource ∉ (run b2cex false).trace :=
  ⟨rfl, by decide, by decide⟩

/-- A concrete behavior for the C2 witness: the sink connection succeeds. -/
def b2witness : Behavior :=
  { connect := .ok true
    selectMailbox := .ok true
    fetchUnread := .ok [⟨str "m1", some (str "S"), none, none, none, none, none⟩]
    jiraConnect := .ok true
    parse := fun _ => .ok [(str "summary", .pstr (str "S"))]
    createIssue := fun _ => .ok none
    addAttachment := fun _ _ _ => .ok true
    markRead := fun _ => .ok true
    disconnectSource := .ok ()
    disconnectJira := .ok () }

/-- **C2 witness.** The amended theorem applied to a concrete cycle. -/
theorem c2_sink_connect_once_before_loop_witness :
    (b2witness.jiraConnect = .ok true →
      ∃ rest, (run b2witness false).trace =
          [.connectCall, .selectCall, .fetchCall, .jiraConnectCall] ++ rest ∧
        Ev.jiraConnectCall ∉ rest) ∧
    (b2witness.jiraConnect = .ok false → b2witness.disconnectSource = .ok () →
      run b2witness false = ⟨false, 0, [.connectCall, .selectCall, .fetchCall, .jiraConnectCall,
        .logErr .jiraConnectFailed, .discSource]⟩) ∧
    (∀ e, b2witness.jiraConnect = .error e →
      run b2witness false = ⟨false, 0, [.connectCall, .selectCall, .fetchCall, .jiraConnectCall,
        .logErr (.runFailed e)]⟩) :=
  c2_sink_connect_once_before_loop b2witness
    [⟨str "m1", some (str "S"), none, none, none, none, none⟩] rfl rfl rfl (by decide)

theorem processMsg_no_global (b : Behavior) (d : Bool) (m : EmailData) (ev : Ev)
    (hglob : ev = .connectCall ∨ ev = .selectCall ∨ ev = .fetchCall ∨
      ev = .jiraConnectCall ∨ ev = .discSource ∨ ev = .discJira) :
    ev ∉ (processMsg b d m).1 := by
  intro h
  rcases processMsg_events b d m _ h with h' | h' | ⟨f, h'⟩ | h' | ⟨l, h'⟩ <;>
    (subst h'; rcases hglob with h | h | h | h | h | h <;> exact Ev.noConfusion h)

theorem runTail_count (b : Behavior) (d : Bool) (pre : List Ev) (lp : List Ev × Nat)
    (ev0 : Ev) (hloop : ev0 ∉ lp.1)
    (h1 : ev0 ≠ .discSource) (h2 : ev0 ≠ .discJira)
    (h3 : ∀ e, ev0 ≠ .logErr (.runFailed e)) :
    ((runTail b d pre lp).trace).count ev0 = pre.count ev0 := by
  obtain ⟨suf, htr, hsuf, -⟩ := runTail_trace b d pre lp
  rw [htr]
  have hsuf0 : ev0 ∉ suf := by
    intro h
    rcases hsuf _ h with h' | ⟨-, h'⟩ | ⟨e, h'⟩
    · exact h1 h'
    · exact h2 h'
    · exact h3 e h'
  rw [List.count_append, List.count_append,
    List.count_eq_zero.mpr hloop, List.count_eq_zero.mpr hsuf0]
  omega

theorem loop_no_global (b : Behavior) (d : Bool) (msgs : List EmailData) (ev : Ev)
    (hglob : ev = .connectCall ∨ ev = .selectCall ∨ ev = .fetchCall ∨
      ev = .jiraConnectCall ∨ ev = .discSource ∨ ev = .discJira) :
    ev ∉ (runLoop b d msgs).1 := by
  intro h
  rw [runLoop_spec] at h
  obtain ⟨l, hl, hevl⟩ := List.mem_flatten.mp h
  obtain ⟨m, hmm, rfl⟩ := List.mem_map.mp hl
  exact processMsg_no_global b d m ev hglob hevl

theorem run_count_le_one (b : Behavior) (d : Bool) :
    (run b d).trace.count .connectCall ≤ 1 ∧
    (run b d).trace.count .jiraConnectCall ≤ 1 := by
  cases hc : b.connect with
  | error e => simp [run, hc, List.count_cons, beq_iff_eq]
  | ok bc =>
  cases bc with
  | false => simp [run, hc, List.count_cons, beq_iff_eq]
  | true =>
  cases hsel : b.selectMailbox with
  | error e => simp [run, hc, hsel, List.count_cons, beq_iff_eq]
  | ok bs =>
  cases bs with
  | false =>
    cases hds : b.disconnectSource with
    | error e => simp [run, hc, hsel, hds, List.count_cons, beq_iff_eq]
    | ok u => simp [run, hc, hsel, hds, List.count_cons, beq_iff_eq]
  | true =>
  cases hf : b.fetchUnread with
  | error e => simp [run, hc, hsel, hf, List.count_cons, beq_iff_eq]
  | ok msgs =>
  by_cases hemp : msgs.isEmpty
  · cases hds : b.disconnectSource with
    | error e => simp [run, hc, hsel, hf, hemp, hds, List.count_cons, beq_iff_eq]
    | ok u => simp [run, hc, hsel, hf, hemp, hds, List.count_cons, beq_iff_eq]
  · have hne : msgs ≠ [] := by intro hx; subst hx; simp at hemp
    cases d with
    | true =>
      rw [run_dry_eq b msgs hc hsel hf hne]
      constructor
      · rw [runTail_count b true _ _ _ (loop_no_global b true msgs _ (by simp))
          (by simp) (by simp) (by simp)]
        simp [List.count_cons, beq_iff_eq]
      · rw [runTail_count b true _ _ _ (loop_no_global b true msgs _ (by simp))
          (by simp) (by simp) (by simp)]
        simp [List.count_cons, beq_iff_eq]
    | false =>
      cases hj : b.jiraConnect with
      | error e => simp [run, hc, hsel, hf, hemp, hj, List.count_cons, beq_iff_eq]
      | ok bj =>
      cases bj with
      | false =>
        cases hds : b.disconnectSource with
        | error e => simp [run, hc, hsel, hf, hemp, hj, hds, List.count_cons, beq_iff_eq]
        | ok u => simp [run, hc, hsel, hf, hemp, hj, hds, List.count_cons, beq_iff_eq]
      | true =>
        rw [run_nondry_eq b msgs hc hsel hf hne hj]
        constructor
        · rw [runTail_count b false _ _ _ (loop_no_global b false msgs _ (by simp))
            (by simp) (by simp) (by simp)]
          simp [List.count_cons, beq_iff_eq]
        · rw [runTail_count b false _ _ _ (loop_no_global b false msgs _ (by simp))
            (by simp) (by simp) (by simp)]
          simp [List.count_cons, beq_iff_eq]

/-- **C6 (amended).** In every cycle the mail-source and ticket-sink
connections are each acquired at most once.  The boolean-failure abort
paths (mailbox-selection returning false, zero fetched messages) and the
mainline release the source connection, and the mainline also releases
the sink when not in dry-run mode; but a *raised* error from a
collaborator is caught by the outer handler, which returns failure
without releasing anything — e.g. a raise during fetch leaves the source
connection unreleased. -/
theorem c6_resource_release (b : Behavior) (d : Bool) :
    ((run b d).trace.count .connectCall ≤ 1 ∧
     (run b d).trace.count .jiraConnectCall ≤ 1) ∧
    (b.connect = .ok true → b.selectMailbox = .ok false →
      Ev.discSource ∈ (run b d).trace) ∧
    (b.connect = .ok true → b.selectMailbox = .ok true → b.fetchUnread = .ok [] →
      Ev.discSource ∈ (run b d).trace) ∧
    (∀ msgs, b.connect = .ok true → b.selectMailbox = .ok true →
      b.fetchUnread = .ok msgs → msgs ≠ [] → (d = false → b.jiraConnect = .ok true) →
      Ev.discSource ∈ (run b d).trace ∧
      (d = false → b.disconnectSource = .ok () → Ev.discJira ∈ (run b d).trace)) ∧
    (∀ e, b.connect = .ok true → b.selectMailbox = .ok true → b.fetchUnread = .error e →
      run b d = ⟨false, 0, [.connectCall, .selectCall, .fetchCall, .logErr (.runFailed e)]⟩ ∧
      Ev.discSource ∉ (run b d).trace) := by
  refine ⟨run_count_le_one b d, ?_, ?_, ?_, ?_⟩
  · intro h1 h2
    cases hds : b.disconnectSource with
    | error e => simp [run, h1, h2, hds]
    | ok u => simp [run, h1, h2, hds]
  · intro h1 h2 h3
    cases hds : b.disconnectSource with
    | error e => simp [run, h1, h2, h3, hds]
    | ok u => simp [run, h1, h2, h3, hds]
  · intro msgs h1 h2 h3 hne hj
    have hmain : run b d = runTail b d
        (if d then [.connectCall, .selectCall, .fetchCall]
         else [.connectCall, .selectCall, .fetchCall, .jiraConnectCall])
        (runLoop b d msgs) := by
      cases d with
      | true => simpa using run_dry_eq b msgs h1 h2 h3 hne
      | false => simpa using run_nondry_eq b msgs h1 h2 h3 hne (hj rfl)
    constructor
    · rw [hmain]
      unfold runTail
      cases hds : b.disconnectSource with
      | error e => simp
      | ok u =>
        cases d with
        | true => simp
        | false =>
          cases hdj : b.disconnectJira with
          | error e => simp
          | ok u' => simp
    · intro hd hds
      subst hd
      rw [hmain]
      unfold runTail
      rw [hds]
      cases hdj : b.disconnectJira with
      | error e => simp
      | ok u' => simp
  · intro e h1 h2 h3
    refine ⟨?_, ?_⟩
    · simp [run, h1, h2, h3]
    · simp [run, h1, h2, h3]

/-- A concrete behavior for the C6 counterexample: fetching raises after
the source connection was successfully acquired. -/
def b6cex : Behavior :=
  { connect := .ok true
    selectMailbox := .ok true
    fetchUnread := .error (.other (str "socket"))
    jiraConnect := .ok true
    parse := fun _ => .ok []
    createIssue := fun _ => .ok none
    addAttachment := fun _ _ _ => .ok true
    markRead := fun _ => .ok true
    disconnectSource := .ok ()
    disconnectJira := .ok () }

/-- **C6 counterexample.** A collaborator raise (during fetch) is an exit
path of the cycle on which the acquired source connection is *not*
released: the source was connected, the cycle returns failure, and no
source disconnect appears in the trace — refuting "every exit path ...
releases whichever connections were acquired" (the code has no
`finally`). -/
theorem c6_counterexample :
    b6cex.connect = .ok true ∧
    Ev.connectCall ∈ (run b6cex false).trace ∧
    (run b6cex false).ok = false ∧
    Ev.discSource ∉ (run b6cex false).trace :=
  ⟨rfl, by decide, by decide, by decide⟩

/-- A concrete behavior for the C6 witness (a fully successful cycle). -/
def b6witness : Behavior :=
  { connect := .ok true
    selectMailbox := .ok true
    fetchUnread := .ok [⟨str "m1", some (str "S"), none, none, none, none, none⟩]
    jiraConnect := .ok true
    parse := fun _ => .ok [(str "summary", .pstr (str "S")),
                           (str "attachments", .patts [])]
    createIssue := fun _ => .ok (some (str "K-1"))
    addAttachment := fun _ _ _ => .ok true
    markRead := fun _ => .ok true
    disconnectSource := .ok ()
    disconnectJira := .ok () }

/-- **C6 witness.** The amended theorem applied to a concrete cycle. -/
theorem c6_resource_release_witness :
    (((run b6witness false).trace.count .connectCall ≤ 1 ∧
      (run b6witness false).trace.count .jiraConnectCall ≤ 1) ∧
    (b6witness.connect = .ok true → b6witness.selectMailbox = .ok false →
      Ev.discSource ∈ (run b6witness false).trace) ∧
    (b6witness.connect = .ok true → b6witness.selectMailbox = .ok true →
      b6witness.fetchUnread = .ok [] →
      Ev.discSource ∈ (run b6witness false).trace) ∧
    (∀ msgs, b6witness.connect = .ok true → b6witness.selectMailbox = .ok true →
      b6witness.fetchUnread = .ok msgs → msgs ≠ [] →
      (false = false → b6witness.jiraConnect = .ok true) →
      Ev.discSource ∈ (run b6witness false).trace ∧
      (false = false → b6witness.disconnectSource = .ok () →
        Ev.discJira ∈ (run b6witness false).trace)) ∧
    (∀ e, b6witness.connect = .ok true → b6witness.selectMailbox = .ok true →
      b6witness.fetchUnread = .error e →
      run b6witness false = ⟨false, 0, [.connectCall, .selectCall, .fetchCall,
        .logErr (.runFailed e)]⟩ ∧
      Ev.discSource ∉ (run b6witness false).trace)) :=
  c6_resource_release b6witness false

/-- **C10 (amended).** The cycle's boolean outcome is independent of the
per-message results: whenever the source connects, the mailbox is
selected, fetching returns (any) messages without raising, the sink
connects when not in dry-run mode, and the final disconnect calls do not
raise, the cycle returns success — even when every fetched message fails
(succeeded may be 0).  A raise from fetch or from a final disconnect,
however, makes the cycle report failure regardless of per-message
results. -/
theorem c10_outcome_independent_of_messages (b : Behavior) (d : Bool)
    (msgs : List EmailData)
    (h1 : b.connect = .ok true) (h2 : b.selectMailbox = .ok true)
    (h3 : b.fetchUnread = .ok msgs)
    (h4 : d = false → b.jiraConnect = .ok true)
    (h5 : b.disconnectSource = .ok ())
    (h6 : d = false → b.disconnectJira = .ok ()) :
    (run b d).ok = true := by
  by_cases hne : msgs = []
  · subst hne
    simp [run, h1, h2, h3, h5]
  · have hmain : run b d = runTail b d
        (if d then [.connectCall, .selectCall, .fetchCall]
         else [.connectCall, .selectCall, .fetchCall, .jiraConnectCall])
        (runLoop b d msgs) := by
      cases d with
      | true => simpa using run_dry_eq b msgs h1 h2 h3 hne
      | false => simpa using run_nondry_eq b msgs h1 h2 h3 hne (h4 rfl)
    rw [hmain]
    unfold runTail
    rw [h5]
    cases d with
    | true => simp
    | false => rw [h6 rfl]; simp

/-- A concrete behavior for the C10 counterexample: every message
succeeds but the final source disconnect raises. -/
def b10cex : Behavior :=
  { connect := .ok true
    selectMailbox := .ok true
    fetchUnread := .ok [⟨str "m1", some (str "S"), none, none, none, none, none⟩]
    jiraConnect := .ok true
    parse := fun _ => .ok [(str "summary", .pstr (str "S")),
                           (str "description", .pstr (str "D")),
                           (str "issue_type", .pstr (str "Story")),
                           (str "priority", .pstr (str "Medium")),
                           (str "labels", .plist []),
                           (str "components", .plist []),
                           (str "assignee", .pnone),
                           (str "attachments", .patts [])]
    createIssue := fun _ => .ok (some (str "K-1"))
    addAttachment := fun _ _ _ => .ok true
    markRead := fun _ => .ok true
    disconnectSource := .error (.other (str "bye"))
    disconnectJira := .ok () }

/-- **C10 counterexample.** A cycle in which source connection, mailbox
selection and sink connection all succeed, and every fetched message is
processed successfully (succeeded = 1 of 1), yet the cycle returns
failure because the final source disconnect raises — refuting "for every
cycle in which source connection, mailbox selection, and sink connection
succeed, the run cycle returns success". -/
theorem c10_counterexample :
    b10cex.connect = .ok true ∧ b10cex.selectMailbox = .ok true ∧
    b10cex.jiraConnect = .ok true ∧
    (run b10cex false).succeeded = 1 ∧
    (run b10cex false).ok = false :=
  ⟨rfl, rfl, rfl, by decide, by decide⟩

/-- A concrete behavior for the C10 witness: ticket creation fails for
every message (soft failure), the cycle still succeeds. -/
def b10witness : Behavior :=
  { connect := .ok true
    selectMailbox := .ok true
    fetchUnread := .ok [⟨str "m1", some (str "S"), none, none, none, none, none⟩,
                        ⟨str "m2", some (str "T"), none, none, none, none, none⟩]
    jiraConnect := .ok true
    parse := fun _ => .ok [(str "summary", .pstr (str "S"))]
    createIssue := fun _ => .ok none
    addAttachment := fun _ _ _ => .ok true
    markRead := fun _ => .ok true
    disconnectSource := .ok ()
    disconnectJira := .ok () }

/-- **C10 witness.** The amended theorem applied to a cycle where both
messages fail (ticket creation returns no identifier) — the cycle still
returns success with succeeded = 0. -/
theorem c10_outcome_independent_witness :
    (run b10witness false).ok = true ∧ (run b10witness false).succeeded = 0 :=
  ⟨c10_outcome_independent_of_messages b10witness false
      [⟨str "m1", some (str "S"), none, none, none, none, none⟩,
       ⟨str "m2", some (str "T"), none, none, none, none, none⟩]
      rfl rfl rfl (fun _ => rfl) rfl (fun _ => rfl),
   by decide⟩

/-- **C1 (amended).** Per-message failure isolation in every non-dry-run
cycle that reaches the loop: every fetched message is attempted (its
parse call appears in the trace); a message whose processing fails —
extraction raising, ticket creation raising or returning no identifier,
or an attachment upload raising — leaves an error-log record and is *not*
marked read, while processing continues with the remaining messages; a
message counts as succeeded (and is marked read) exactly when ticket
creation returned an identifier and its attachment uploads did not raise;
and the reported success count is the number of such messages.  (The
error log carries the failure reason but not the message identifier.) -/
theorem c1_per_message_isolation (b : Behavior) (msgs : List EmailData)
    (h1 : b.connect = .ok true) (h2 : b.selectMailbox = .ok true)
    (h3 : b.fetchUnread = .ok msgs) (hne : msgs ≠ [])
    (h4 : b.jiraConnect = .ok true)
    (hids : (msgs.map EmailData.id).Nodup) :
    (∀ m ∈ msgs, Ev.parseCall m.id ∈ (run b false).trace) ∧
    (∀ m ∈ msgs, (processMsg b false m).2 = false →
      (∃ l, Ev.logErr l ∈ (processMsg b false m).1) ∧
      Ev.markReadCall m.id ∉ (run b false).trace) ∧
    (∀ m ∈ msgs, (processMsg b false m).2 = true →
      Ev.markReadCall m.id ∈ (run b false).trace) ∧
    (run b false).succeeded = msgs.countP (fun m => (processMsg b false m).2) := by
  have hrun := run_nondry_eq b msgs h1 h2 h3 hne h4
  refine ⟨?_, ?_, ?_, ?_⟩
  · intro m hm
    obtain ⟨rest, hrest⟩ := (processMsg_main b false m).1
    rw [hrun]
    exact mem_trace_of_processMsg b false msgs _ m hm _ (by rw [hrest]; simp)
  · intro m hm hfail
    refine ⟨(processMsg_main b false m).2.2 hfail, ?_⟩
    intro hmem
    rw [hrun] at hmem
    rcases trace_cases b false msgs _ _ hmem with h | ⟨m', hm', hpm⟩ | h | ⟨-, h⟩ | ⟨e, h⟩
    · simp at h
    · obtain hforms := processMsg_events b false m' _ hpm
      have hid : m'.id = m.id := by
        rcases hforms with h | h | ⟨f, h⟩ | h | ⟨l, h⟩ <;> first
          | exact Ev.noConfusion h
          | (injection h with h'; exact h'.symm)
      have hmeq : m' = m := List.inj_on_of_nodup_map hids hm' hm hid
      subst hmeq
      have hsucc : (processMsg b false m').2 = true :=
        (processMsg_main b false m').2.1.mp (by rwa [← hid] at hpm)
      rw [hsucc] at hfail
      exact Bool.noConfusion hfail
    · exact Ev.noConfusion h
    · exact Ev.noConfusion h
    · exact Ev.noConfusion h
  · intro m hm hsucc
    rw [hrun]
    exact mem_trace_of_processMsg b false msgs _ m hm _
      ((processMsg_main b false m).2.1.mpr hsucc)
  · rw [hrun]
    obtain ⟨suf, -, -, hcnt⟩ := runTail_trace b false _ (runLoop b false msgs)
    rw [hcnt, runLoop_spec]

/-- A concrete behavior for the C1 counterexample: one message whose
extracted payload carries a reader-style attachment stored under `path`
(no `content` key); ticket creation succeeds, then the attachment stage
raises `KeyError('content')`. -/
def b1cex : Behavior :=
  { connect := .ok true
    selectMailbox := .ok true
    fetchUnread := .ok [⟨str "m1", some (str "S"), none, none, none, none, none⟩]
    jiraConnect := .ok true
    parse := fun _ => .ok [(str "summary", .pstr (str "S")),
                           (str "description", .pstr (str "D")),
                           (str "issue_type", .pstr (str "Story")),
                           (str "priority", .pstr (str "Medium")),
                           (str "labels", .plist []),
                           (str "components", .plist []),
                           (str "assignee", .pnone),
                           (str "attachments", .patts
                             [⟨str "a.txt", none, some (str "attachments/a.txt")⟩])]
    createIssue := fun _ => .ok (some (str "K1"))
    addAttachment := fun _ _ _ => .ok true
    markRead := fun _ => .ok true
    disconnectSource := .ok ()
    disconnectJira := .ok () }

/-- **C1 counterexample.** Ticket creation succeeds for the message (the
create call returns identifier "K1"), yet the message is *not* marked
read, because the attachment upload stage raises (here the `KeyError`
for the missing `content` key of a path-style attachment) — refuting
"every message whose ticket creation succeeded is marked read". -/
theorem c1_counterexample :
    b1cex.createIssue [PyVal.pstr (str "S"), PyVal.pstr (str "D"),
      PyVal.pstr (str "Story"), PyVal.pstr (str "Medium"), PyVal.plist [],
      PyVal.plist [], PyVal.pnone] = .ok (some (str "K1")) ∧
    (run b1cex false).trace =
      [.connectCall, .selectCall, .fetchCall, .jiraConnectCall,
       .parseCall (str "m1"), .createCall (str "m1"),
       .logErr (.perMessage (.keyError (str "content"))),
       .discSource, .discJira] ∧
    Ev.markReadCall (str "m1") ∉ (run b1cex false).trace ∧
    (run b1cex false).succeeded = 0 :=
  ⟨rfl, by decide, by decide, by decide⟩

/-- The three messages of the C1 witness scenario. -/
def msgs1witness : List EmailData :=
  [⟨str "m1", some (str "S1"), none, none, none, none, none⟩,
   ⟨str "m2", some (str "S2"), none, none, none, none, none⟩,
   ⟨str "m3", some (str "S3"), none, none, none, none, none⟩]

/-- A concrete behavior for the C1 witness: message 2's ticket creation
returns no identifier; everything else succeeds. -/
def b1witness : Behavior :=
  { connect := .ok true
    selectMailbox := .ok true
    fetchUnread := .ok msgs1witness
    jiraConnect := .ok true
    parse := fun m => .ok [(str "summary", .pstr (m.subject.getD [])),
                           (str "description", .pstr (str "D")),
                           (str "issue_type", .pstr (str "Story")),
                           (str "priority", .pstr (str "Medium")),
                           (str "labels", .plist []),
                           (str "components", .plist []),
                           (str "assignee", .pnone),
                           (str "attachments", .patts [])]
    createIssue := fun args =>
      match args with
      | PyVal.pstr s :: _ => if s = str "S2" then .ok none else .ok (some (str "K"))
      | _ => .ok none
    addAttachment := fun _ _ _ => .ok true
    markRead := fun _ => .ok true
    disconnectSource := .ok ()
    disconnectJira := .ok () }

/-- **C1 witness.** The amended theorem applied to the claim's concrete
3-message scenario (message 2's ticket creation fails): the succeeded
count is 2 and `markRead` is invoked exactly for messages 1 and 3. -/
theorem c1_per_message_isolation_witness :
    ((∀ m ∈ msgs1witness, Ev.parseCall m.id ∈ (run b1witness false).trace) ∧
     (∀ m ∈ msgs1witness, (processMsg b1witness false m).2 = false →
       (∃ l, Ev.logErr l ∈ (processMsg b1witness false m).1) ∧
       Ev.markReadCall m.id ∉ (run b1witness false).trace) ∧
     (∀ m ∈ msgs1witness, (processMsg b1witness false m).2 = true →
       Ev.markReadCall m.id ∈ (run b1witness false).trace) ∧
     (run b1witness false).succeeded =
       msgs1witness.countP (fun m => (processMsg b1witness false m).2)) ∧
    ((run b1witness false).succeeded = 2 ∧
     Ev.markReadCall (str "m1") ∈ (run b1witness false).trace ∧
     Ev.markReadCall (str "m2") ∉ (run b1witness false).trace ∧
     Ev.markReadCall (str "m3") ∈ (run b1witness false).trace) :=
  ⟨c1_per_message_isolation b1witness msgs1witness rfl rfl rfl (by decide) rfl (by decide),
   by decide⟩

/-! ## Earliest-offset truncation (C7) -/

/-- The split point of `s.split(p)[0]`: the first occurrence of `p`, or
the length of `s` when there is none. -/
def cut (p s : Str) : Nat := (firstOcc p s).getD s.length

/-- Modelled from the spec: the earliest byte offset at which any of the
markers occurs (the length of `s` when none does). -/
def cutMin (ms : List Str) (s : Str) : Nat :=
  ms.foldr (fun p acc => min (cut p s) acc) s.length

/-- Do `p` and `q` not interlock?  No suffix of `q` starting strictly
inside `q` is prefix-comparable with `p` (so an occurrence of `p` can
never start strictly inside an occurrence of `q`). -/
def compatB (p q : Str) : Bool :=
  (List.range q.length).all (fun d =>
    d = 0 || (!(p.isPrefixOf (q.drop d)) && !((q.drop d).isPrefixOf p)))

theorem firstOcc_some_pfx {p : Str} : ∀ {s : Str} {i : Nat},
    firstOcc p s = some i → p <+: s.drop i := by
  intro s
  induction s with
  | nil =>
    intro i h
    simp only [firstOcc] at h
    by_cases hp : p = []
    · rw [if_pos hp] at h
      injection h with h
      subst h
      simp [hp]
    · rw [if_neg hp] at h
      exact Option.noConfusion h
  | cons c rest ih =>
    intro i h
    simp only [firstOcc] at h
    by_cases hpre : p.isPrefixOf (c :: rest)
    · rw [if_pos hpre] at h
      injection h with h
      subst h
      simpa using List.isPrefixOf_iff_prefix.mp hpre
    · rw [if_neg hpre] at h
      cases hr : firstOcc p rest with
      | none => rw [hr] at h; exact Option.noConfusion h
      | some i' =>
        rw [hr] at h
        simp at h
        subst h
        simpa using ih hr

theorem firstOcc_minimal {p : Str} : ∀ {s : Str} {i : Nat},
    firstOcc p s = some i → ∀ j, j < i → ¬ p <+: s.drop j := by
  intro s
  induction s with
  | nil =>
    intro i h j hj
    simp only [firstOcc] at h
    by_cases hp : p = []
    · rw [if_pos hp] at h
      injection h with h
      omega
    · rw [if_neg hp] at h
      exact Option.noConfusion h
  | cons c rest ih =>
    intro i h j hj
    simp only [firstOcc] at h
    by_cases hpre : p.isPrefixOf (c :: rest)
    · rw [if_pos hpre] at h
      injection h with h
      omega
    · rw [if_neg hpre] at h
      cases hr : firstOcc p rest with
      | none => rw [hr] at h; exact Option.noConfusion h
      | some i' =>
        rw [hr] at h
        simp at h
        subst h
        cases j with
        | zero =>
          intro hcontra
          exact hpre (List.isPrefixOf_iff_prefix.mpr (by simpa using hcontra))
        | succ j' =>
          have := ih hr j' (by omega)
          simpa using this

theorem firstOcc_none {p : Str} : ∀ {s : Str},
    firstOcc p s = none → ∀ j, ¬ p <+: s.drop j := by
  intro s
  induction s with
  | nil =>
    intro h j
    simp only [firstOcc] at h
    by_cases hp : p = []
    · rw [if_pos hp] at h; exact Option.noConfusion h
    · intro hcontra
      rw [List.drop_nil] at hcontra
      exact hp (List.prefix_nil.mp hcontra)
  | cons c rest ih =>
    intro h j
    simp only [firstOcc] at h
    by_cases hpre : p.isPrefixOf (c :: rest)
    · rw [if_pos hpre] at h; exact Option.noConfusion h
    · rw [if_neg hpre] at h
      cases hr : firstOcc p rest with
      | some i' => rw [hr] at h; simp at h
      | none =>
        cases j with
        | zero =>
          intro hcontra
          exact hpre (List.isPrefixOf_iff_prefix.mpr (by simpa using hcontra))
        | succ j' => simpa using ih hr j'

theorem firstOcc_complete {p : Str} : ∀ {s : Str} {i : Nat},
    p <+: s.drop i → (∀ j, j < i → ¬ p <+: s.drop j) → firstOcc p s = some i := by
  intro s
  induction s with
  | nil =>
    intro i hocc hmin
    rw [List.drop_nil] at hocc
    have hp : p = [] := List.prefix_nil.mp hocc
    have hi : i = 0 := by
      by_contra hne
      exact hmin 0 (by omega) (by simp [hp])
    subst hi
    simp [firstOcc, hp]
  | cons c rest ih =>
    intro i hocc hmin
    cases i with
    | zero =>
      simp only [List.drop_zero] at hocc
      simp [firstOcc, List.isPrefixOf_iff_prefix.mpr hocc]
    | succ i' =>
      have hpre : ¬ p.isPrefixOf (c :: rest) := by
        intro hcontra
        exact hmin 0 (by omega) (by simpa using List.isPrefixOf_iff_prefix.mp hcontra)
      simp only [firstOcc, if_neg hpre]
      have : firstOcc p rest = some i' := by
        refine ih (by simpa using hocc) ?_
        intro j hj hcontra
        exact hmin (j + 1) (by omega) (by simpa using hcontra)
      rw [this]
      rfl

theorem firstOcc_le_length {p : Str} : ∀ {s : Str} {i : Nat},
    firstOcc p s = some i → i ≤ s.length := by
  intro s
  induction s with
  | nil =>
    intro i h
    simp only [firstOcc] at h
    by_cases hp : p = []
    · rw [if_pos hp] at h; injection h with h; omega
    · rw [if_neg hp] at h; exact Option.noConfusion h
  | cons c rest ih =>
    intro i h
    simp only [firstOcc] at h
    by_cases hpre : p.isPrefixOf (c :: rest)
    · rw [if_pos hpre] at h; injection h with h; omega
    · rw [if_neg hpre] at h
      cases hr : firstOcc p rest with
      | none => rw [hr] at h; exact Option.noConfusion h
      | some i' =>
        rw [hr] at h
        simp at h
        subst h
        have := ih hr
        simp
        omega

theorem cut_le_length (p s : Str) : cut p s ≤ s.length := by
  unfold cut
  cases h : firstOcc p s with
  | none => simp
  | some i => simpa using firstOcc_le_length h

theorem truncMarker_eq_take (s p : Str) : truncMarker s p = s.take (cut p s) := by
  unfold truncMarker cut
  cases h : firstOcc p s with
  | none => simp
  | some i => rfl

theorem occ_fits {p s : Str} {j : Nat} (hp : p <+: s.drop j) (hne : p ≠ []) :
    j + p.length ≤ s.length := by
  by_cases hj : j ≤ s.length
  · have := List.IsPrefix.length_le hp
    rw [List.length_drop] at this
    omega
  · rw [List.drop_eq_nil_of_le (by omega)] at hp
    exact absurd (List.prefix_nil.mp hp) hne

theorem occ_of_occ_take {p s : Str} {j k : Nat} (hp : p <+: (s.take k).drop j) :
    p <+: s.drop j := by
  rw [List.drop_take] at hp
  exact hp.trans (List.take_prefix _ _)

theorem occ_take_of_occ {p s : Str} {j k : Nat} (hp : p <+: s.drop j)
    (hfit : j + p.length ≤ k) : p <+: (s.take k).drop j := by
  rw [List.drop_take]
  obtain ⟨t, ht⟩ := hp
  rw [← ht, List.take_append_eq_append_take,
    List.take_of_length_le (by omega)]
  exact ⟨t.take (k - j - p.length), rfl⟩

theorem compatB_spec {p q : Str} (h : compatB p q = true) :
    ∀ d, 0 < d → d < q.length → ¬ (p <+: q.drop d) ∧ ¬ (q.drop d <+: p) := by
  intro d hd hdq
  have := List.all_eq_true.mp h d (List.mem_range.mpr hdq)
  simp only [Bool.or_eq_true, decide_eq_true_eq, Bool.and_eq_true,
    Bool.not_eq_true'] at this
  rcases this with h0 | ⟨h1, h2⟩
  · omega
  · constructor
    · intro hc
      rw [← List.isPrefixOf_iff_prefix] at hc
      rw [hc] at h1
      exact Bool.noConfusion h1
    · intro hc
      rw [← List.isPrefixOf_iff_prefix] at hc
      rw [hc] at h2
      exact Bool.noConfusion h2

/-- With `compatB p q`, an occurrence of `p` never starts strictly inside
an occurrence of `q`. -/
theorem no_overlap {p q : Str} (hpq : compatB p q = true) {s : Str} {i j : Nat}
    (hq : q <+: s.drop j) (hp : p <+: s.drop i) (h1 : j < i) (h2 : i < j + q.length) :
    False := by
  obtain ⟨t, ht⟩ := hq
  have hdi : s.drop i = q.drop (i - j) ++ t := by
    have h0 : s.drop i = (s.drop j).drop (i - j) := by
      rw [List.drop_drop]
      congr 1
      omega
    rw [h0, ← ht, List.drop_append_eq_append_drop]
    have h1 : i - j - q.length = 0 := by omega
    rw [h1, List.drop_zero]
  rw [hdi] at hp
  have hcomp := List.prefix_or_prefix_of_prefix hp (List.prefix_append (q.drop (i - j)) t)
  have hspec := compatB_spec hpq (i - j) (by omega) (by omega)
  rcases hcomp with h | h
  · exact hspec.1 h
  · exact hspec.2 h

theorem cut_eq_of_none {p s : Str} (h : firstOcc p s = none) : cut p s = s.length := by
  unfold cut
  rw [h]
  rfl

theorem cut_eq_of_some {p s : Str} {i : Nat} (h : firstOcc p s = some i) : cut p s = i := by
  unfold cut
  rw [h]
  rfl

theorem cut_take_eq {p q s : Str} (hqne : q ≠ [])
    (hno : ∀ i j, q <+: s.drop j → p <+: s.drop i → j < i → i < j + q.length → False) :
    min (cut p s) (cut q (s.take (cut p s))) = min (cut p s) (cut q s) := by
  have hcle : cut p s ≤ s.length := cut_le_length p s
  by_cases hcase : cut p s ≤ cut q s
  · have hge : cut p s ≤ cut q (s.take (cut p s)) := by
      cases hq' : firstOcc q (s.take (cut p s)) with
      | none =>
        rw [cut_eq_of_none hq', List.length_take]
        omega
      | some j' =>
        rw [cut_eq_of_some hq']
        have hocc : q <+: s.drop j' := occ_of_occ_take (firstOcc_some_pfx hq')
        cases hq0 : firstOcc q s with
        | none => exact absurd hocc (firstOcc_none hq0 j')
        | some j0 =>
          have hj0 : ¬ j' < j0 := fun hlt => firstOcc_minimal hq0 j' hlt hocc
          have hq0c : cut q s = j0 := cut_eq_of_some hq0
          omega
    omega
  · have hlt : cut q s < cut p s := by omega
    obtain ⟨j, hj, hjc⟩ : ∃ j, firstOcc q s = some j ∧ cut q s = j := by
      cases hq0 : firstOcc q s with
      | none =>
        exfalso
        have := cut_eq_of_none hq0
        omega
      | some j => exact ⟨j, rfl, cut_eq_of_some hq0⟩
    have hqocc : q <+: s.drop j := firstOcc_some_pfx hj
    have hfit : j + q.length ≤ cut p s := by
      cases hp0 : firstOcc p s with
      | none =>
        have h1 := cut_eq_of_none hp0
        have h2 := occ_fits hqocc hqne
        omega
      | some ip =>
        have hcip : cut p s = ip := cut_eq_of_some hp0
        have hpocc : p <+: s.drop ip := firstOcc_some_pfx hp0
        by_contra hcontra
        exact hno ip j hqocc hpocc (by omega) (by omega)
    have hocc_take : q <+: (s.take (cut p s)).drop j := occ_take_of_occ hqocc hfit
    have hmin_take : ∀ j', j' < j → ¬ q <+: (s.take (cut p s)).drop j' :=
      fun j' hj' hcontra => firstOcc_minimal hj j' hj' (occ_of_occ_take hcontra)
    have hfq : firstOcc q (s.take (cut p s)) = some j :=
      firstOcc_complete hocc_take hmin_take
    have := cut_eq_of_some hfq
    omega

theorem cutMin_take_eq (p : Str) (L : List Str) (s : Str)
    (hcomp : ∀ q ∈ L, compatB p q = true) (hne : ∀ q ∈ L, q ≠ []) :
    min (cut p s) (cutMin L (s.take (cut p s))) = min (cut p s) (cutMin L s) := by
  have hcle : cut p s ≤ s.length := cut_le_length p s
  induction L with
  | nil =>
    simp only [cutMin, List.foldr_nil, List.length_take]
    omega
  | cons q L ih =>
    have h1 := @cut_take_eq p q s (hne q (List.mem_cons_self _ _))
      (fun i j hq hp hji hij =>
        no_overlap (hcomp q (List.mem_cons_self _ _)) hq hp hji hij)
    have h2 := ih (fun q hq => hcomp q (List.mem_cons_of_mem _ hq))
      (fun q hq => hne q (List.mem_cons_of_mem _ hq))
    simp only [cutMin, List.foldr_cons] at *
    omega

/-- The sequential per-marker truncation loop of `_clean_body` equals
truncation at the earliest byte offset at which any marker occurs, for
every marker list whose members are non-empty and pairwise
non-interlocking. -/
theorem foldl_truncMarker_eq (ms : List Str) :
    List.Pairwise (fun p q => compatB p q = true) ms → (∀ p ∈ ms, p ≠ []) →
    ∀ s : Str, ms.foldl truncMarker s = s.take (cutMin ms s) := by
  induction ms with
  | nil =>
    intro _ _ s
    simp [cutMin]
  | cons p L ih =>
    intro hpair hne s
    obtain ⟨hcomp, hpairL⟩ := List.pairwise_cons.mp hpair
    have hneL : ∀ q ∈ L, q ≠ [] := fun q hq => hne q (List.mem_cons_of_mem _ hq)
    simp only [List.foldl_cons]
    rw [truncMarker_eq_take, ih hpairL hneL (s.take (cut p s)), List.take_take]
    have := cutMin_take_eq p L s hcomp hneL
    simp only [cutMin, List.foldr_cons]
    congr 1
    simp only [cutMin] at this
    omega

/-- **C7.** Signature/quote truncation picks the earliest marker: the
signature-marker loop truncates every body at the earliest byte offset at
which any signature marker occurs (which is independent of the order the
markers are listed), then the quoted-reply loop applies the same
earliest-offset truncation to the result; and the body
`"Hello\n> quoted\nRegards,\nFooter"` cleans to `"Hello"` under the
default configuration. -/
theorem c7_earliest_marker_truncation :
    (∀ s : Str, sigMarkers.foldl truncMarker s = s.take (cutMin sigMarkers s)) ∧
    (∀ s : Str, quoteMarkers.foldl truncMarker s = s.take (cutMin quoteMarkers s)) ∧
    cleanBody (mkEmailParser ⟨none, none, none, none, none⟩)
      (str "Hello\n> quoted\nRegards,\nFooter") = .ok (str "Hello") :=
  ⟨foldl_truncMarker_eq sigMarkers (by decide) (by decide),
   foldl_truncMarker_eq quoteMarkers (by decide) (by decide),
   by with_unfolding_all rfl⟩

/-! ## Occurrence-freedom and idempotence of the cleaning stages (C8) -/

/-- `m` occurs nowhere in `s` as a contiguous substring. -/
def noOcc (m s : Str) : Prop := ∀ j, ¬ m <+: s.drop j

theorem noOcc_iff_firstOcc_none {m s : Str} : noOcc m s ↔ firstOcc m s = none := by
  constructor
  · intro h
    cases hf : firstOcc m s with
    | none => rfl
    | some i => exact absurd (firstOcc_some_pfx hf) (h i)
  · intro h
    exact firstOcc_none h

theorem truncMarker_of_noOcc {m s : Str} (h : noOcc m s) : truncMarker s m = s := by
  unfold truncMarker
  rw [noOcc_iff_firstOcc_none.mp h]

theorem foldl_truncMarker_of_noOcc {ms : List Str} {s : Str}
    (h : ∀ m ∈ ms, noOcc m s) : ms.foldl truncMarker s = s := by
  induction ms with
  | nil => rfl
  | cons m rest ih =>
    simp only [List.foldl_cons]
    rw [truncMarker_of_noOcc (h m (List.mem_cons_self _ _))]
    exact ih (fun m' hm' => h m' (List.mem_cons_of_mem _ hm'))

theorem noOcc_of_prefix {m s t : Str} (hpre : t <+: s) (h : noOcc m s) : noOcc m t := by
  intro j hocc
  obtain ⟨u, hu⟩ := hpre
  refine h j ?_
  rw [← hu, List.drop_append_eq_append_drop]
  exact hocc.trans (List.prefix_append _ _)

theorem noOcc_of_suffix {m s t : Str} (hsuf : t <:+ s) (h : noOcc m s) : noOcc m t := by
  intro j hocc
  obtain ⟨u, hu⟩ := hsuf
  refine h (u.length + j) ?_
  rw [← hu, List.drop_append_eq_append_drop]
  have h1 : u.drop (u.length + j) = [] := List.drop_eq_nil_of_le (by omega)
  have h2 : u.length + j - u.length = j := by omega
  rw [h1, h2, List.nil_append]
  exact hocc

theorem noOcc_of_infix {m s t : Str} (hinf : t <:+: s) (h : noOcc m s) : noOcc m t := by
  obtain ⟨u, v, huv⟩ := hinf
  have hsuf : t ++ v <:+ s := ⟨u, by rw [← huv, List.append_assoc]⟩
  exact noOcc_of_prefix (List.prefix_append t v) (noOcc_of_suffix hsuf h)

theorem cutMin_le {m : Str} {ms : List Str} (hm : m ∈ ms) (s : Str) :
    cutMin ms s ≤ cut m s := by
  induction ms with
  | nil => simp at hm
  | cons p rest ih =>
    simp only [cutMin, List.foldr_cons]
    rcases List.mem_cons.mp hm with h | h
    · subst h; omega
    · have := ih h
      simp only [cutMin] at this
      omega

theorem cut_le_of_occ {m s : Str} {j : Nat} (hocc : m <+: s.drop j) : cut m s ≤ j := by
  cases hf : firstOcc m s with
  | none => exact absurd hocc (firstOcc_none hf j)
  | some i =>
    rw [cut_eq_of_some hf]
    by_contra hcontra
    exact firstOcc_minimal hf j (by omega) hocc

/-- After truncation at the earliest occurrence, no marker of the list
occurs any more. -/
theorem noOcc_take_cutMin {m : Str} {ms : List Str} (hm : m ∈ ms) (hne : m ≠ [])
    (s : Str) : noOcc m (s.take (cutMin ms s)) := by
  intro j hocc
  have hocc' : m <+: s.drop j := occ_of_occ_take hocc
  have hfit : j + m.length ≤ cutMin ms s := by
    have hlen := List.IsPrefix.length_le hocc
    rw [List.length_drop, List.length_take] at hlen
    have hmne : 0 < m.length := List.length_pos.mpr hne
    omega
  have h1 : cutMin ms s ≤ cut m s := cutMin_le hm s
  have h2 : cut m s ≤ j := cut_le_of_occ hocc'
  have hmne : 0 < m.length := List.length_pos.mpr hne
  omega

/-! ## Newline collapsing: structure lemmas -/

/-- The three-newline string whose absence characterises collapsed text. -/
def nnn : Str := ['\n', '\n', '\n']

theorem collapseRuns_nil : collapseRuns [] = [] := by rw [collapseRuns]

theorem collapseRuns_cons_ne {c : Char} (rest : List Char) (h : ¬ c = '\n') :
    collapseRuns (c :: rest) = c :: collapseRuns rest := by
  rw [collapseRuns]
  simp [h]

theorem collapseRuns_run (rest : List Char) :
    collapseRuns ('\n' :: rest) =
      List.replicate (min ((rest.takeWhile (fun x => decide (x = '\n'))).length + 1) 2) '\n'
        ++ collapseRuns (rest.dropWhile (fun x => decide (x = '\n'))) := by
  rw [collapseRuns]
  simp only [if_pos rfl]
  by_cases h3 : 3 ≤ (rest.takeWhile (fun x => decide (x = '\n'))).length + 1
  · rw [if_pos h3]
    have : min ((rest.takeWhile (fun x => decide (x = '\n'))).length + 1) 2 = 2 := by omega
    rw [this]
    rfl
  · rw [if_neg h3]
    have : min ((rest.takeWhile (fun x => decide (x = '\n'))).length + 1) 2
        = (rest.takeWhile (fun x => decide (x = '\n'))).length + 1 := by omega
    rw [this]
    simp

theorem run_decomp (rest : List Char) :
    '\n' :: rest =
      List.replicate ((rest.takeWhile (fun x => decide (x = '\n'))).length + 1) '\n'
        ++ rest.dropWhile (fun x => decide (x = '\n')) := by
  have hw : rest.takeWhile (fun x => decide (x = '\n'))
      = List.replicate (rest.takeWhile (fun x => decide (x = '\n'))).length '\n' := by
    apply List.eq_replicate_of_mem
    intro c hc
    have := List.mem_takeWhile_imp hc
    simpa using this
  rw [List.replicate_succ, List.cons_append]
  conv_lhs => rw [← List.takeWhile_append_dropWhile (p := fun x => decide (x = '\n')) (l := rest)]
  congr 1
  rw [← hw]

theorem dropWhile_head_ne {l : List Char} {c : Char} {t : List Char}
    (h : l.dropWhile (fun x => decide (x = '\n')) = c :: t) : ¬ (c = '\n') := by
  have := List.dropWhile_get_zero_not (fun x => decide (x = '\n')) l (by rw [h]; simp)
  simpa [h] using this

theorem collapseRuns_head_ne (z : List Char)
    (hz : ∀ c t, z = c :: t → ¬ c = '\n') :
    ∀ c t, collapseRuns z = c :: t → ¬ c = '\n' := by
  cases z with
  | nil => rw [collapseRuns_nil]; intro c t h; exact absurd h (by simp)
  | cons c0 rest =>
    have hc0 : ¬ c0 = '\n' := hz c0 rest rfl
    rw [collapseRuns_cons_ne rest hc0]
    intro c t h
    injection h with h1 h2
    subst h1
    exact hc0

/-- `m` occurs somewhere in `s` as a contiguous substring. -/
def hasOcc (m s : Str) : Prop := ∃ j, m <+: s.drop j

theorem noOcc_iff_not_hasOcc {m s : Str} : noOcc m s ↔ ¬ hasOcc m s := by
  simp [noOcc, hasOcc]

theorem drop_replicate_append {c : Char} (X : List Char) (m j : Nat) :
    (List.replicate m c ++ X).drop j = List.replicate (m - j) c ++ X.drop (j - m) := by
  rw [List.drop_append_eq_append_drop, List.length_replicate, List.drop_replicate]

/-- A text of the form "non-newline characters, then at most one newline"
that is a prefix of a collapsed text is a prefix of the original. -/
theorem prefix_collapse : ∀ z : Str, ∀ a t : Str,
    (∀ c ∈ a, ¬ c = '\n') → (t = [] ∨ t = ['\n']) →
    a ++ t <+: collapseRuns z → a ++ t <+: z := by
  intro z
  induction z using collapseRuns.induct with
  | case1 =>
    intro a t ha ht h
    rwa [collapseRuns_nil] at h
  | case2 rest ih =>
    intro a t ha ht h
    rw [collapseRuns_run] at h
    cases a with
    | nil =>
      rcases ht with rfl | rfl
      · simp
      · simp only [List.nil_append]
        exact List.cons_prefix_cons.mpr ⟨rfl, List.nil_prefix⟩
    | cons c a' =>
      have hc : ¬ c = '\n' := ha c (List.mem_cons_self _ _)
      exfalso
      obtain ⟨m', hm'⟩ : ∃ m',
          min ((rest.takeWhile (fun x => decide (x = '\n'))).length + 1) 2 = m' + 1 :=
        ⟨min ((rest.takeWhile (fun x => decide (x = '\n'))).length + 1) 2 - 1, by omega⟩
      rw [hm', List.replicate_succ, List.cons_append, List.cons_append] at h
      exact hc (List.cons_prefix_cons.mp h).1
  | case3 c rest hc ih =>
    intro a t ha ht h
    rw [collapseRuns_cons_ne rest hc] at h
    cases a with
    | nil =>
      rcases ht with rfl | rfl
      · simp
      · simp only [List.nil_append] at h ⊢
        exact absurd (List.cons_prefix_cons.mp h).1.symm hc
    | cons c0 a' =>
      rw [List.cons_append] at h ⊢
      obtain ⟨heq, htl⟩ := List.cons_prefix_cons.mp h
      subst heq
      exact List.cons_prefix_cons.mpr
        ⟨rfl, ih a' t (fun x hx => ha x (List.mem_cons_of_mem _ hx)) ht htl⟩

/-- An occurrence of a marker `'\n' :: a ++ t` (with `a` non-empty and
newline-free, `t` at most one newline) in a collapsed text reflects to an
occurrence in the original text. -/
theorem hasOcc_collapse {a t : Str} (ha : ∀ c ∈ a, ¬ c = '\n')
    (ht : t = [] ∨ t = ['\n']) (hane : a ≠ []) :
    ∀ z : Str, hasOcc ('\n' :: (a ++ t)) (collapseRuns z) →
      hasOcc ('\n' :: (a ++ t)) z := by
  intro z
  induction z using collapseRuns.induct with
  | case1 =>
    intro h
    rwa [collapseRuns_nil] at h
  | case2 rest ih =>
    intro h
    obtain ⟨j, hj⟩ := h
    rw [collapseRuns_run, drop_replicate_append] at hj
    set k := (rest.takeWhile (fun x => decide (x = '\n'))).length + 1 with hk
    set X := collapseRuns (rest.dropWhile (fun x => decide (x = '\n'))) with hX
    by_cases hjm : min k 2 ≤ j
    · have hz : List.replicate (min k 2 - j) '\n' = [] := by
        have : min k 2 - j = 0 := by omega
        rw [this]
        rfl
      rw [hz, List.nil_append] at hj
      obtain ⟨j', hj'⟩ := ih ⟨j - min k 2, hj⟩
      refine ⟨k + j', ?_⟩
      rw [run_decomp rest, drop_replicate_append]
      have h1 : k - (k + j') = 0 := by omega
      have h2 : k + j' - k = j' := by omega
      rw [h1, h2]
      exact hj'
    · obtain ⟨r', hr'⟩ : ∃ r', min k 2 - j = r' + 1 := ⟨min k 2 - j - 1, by omega⟩
      rw [hr', List.replicate_succ, List.cons_append] at hj
      have htl : a ++ t <+: List.replicate r' '\n' ++ X.drop (j - min k 2) :=
        (List.cons_prefix_cons.mp hj).2
      obtain ⟨c, a', rfl⟩ : ∃ c a', a = c :: a' := by
        cases a with
        | nil => exact absurd rfl hane
        | cons c a' => exact ⟨c, a', rfl⟩
      have hc : ¬ c = '\n' := ha c (List.mem_cons_self _ _)
      cases r' with
      | succ r'' =>
        exfalso
        rw [List.replicate_succ, List.cons_append, List.cons_append] at htl
        exact hc (List.cons_prefix_cons.mp htl).1
      | zero =>
        have hk1 : 1 ≤ k := by rw [hk]; omega
        have hj0 : j - min k 2 = 0 := by omega
        rw [hj0, List.drop_zero] at htl
        simp only [List.replicate, List.nil_append] at htl
        have htl' := prefix_collapse (rest.dropWhile (fun x => decide (x = '\n')))
          (c :: a') t ha ht htl
        refine ⟨k - 1, ?_⟩
        rw [run_decomp rest, drop_replicate_append]
        have h1 : k - (k - 1) = 1 := by omega
        have h2 : k - 1 - k = 0 := by omega
        rw [h1, h2, List.drop_zero]
        exact List.cons_prefix_cons.mpr ⟨rfl, htl'⟩
  | case3 c rest hc ih =>
    intro h
    obtain ⟨j, hj⟩ := h
    rw [collapseRuns_cons_ne rest hc] at hj
    cases j with
    | zero =>
      exfalso
      simp only [List.drop_zero] at hj
      exact hc (List.cons_prefix_cons.mp hj).1.symm
    | succ j' =>
      obtain ⟨j'', hj''⟩ := ih ⟨j', by simpa using hj⟩
      exact ⟨j'' + 1, by simpa using hj''⟩

theorem collapse_noTriple : ∀ z : Str, noOcc nnn (collapseRuns z) := by
  intro z
  induction z using collapseRuns.induct with
  | case1 =>
    rw [collapseRuns_nil]
    intro j h
    rw [List.drop_nil] at h
    have := List.prefix_nil.mp h
    simp [nnn] at this
  | case2 rest ih =>
    rw [collapseRuns_run]
    intro j h
    rw [drop_replicate_append] at h
    set k := (rest.takeWhile (fun x => decide (x = '\n'))).length + 1 with hk
    set X := collapseRuns (rest.dropWhile (fun x => decide (x = '\n'))) with hX
    by_cases hjm : min k 2 ≤ j
    · have hz : min k 2 - j = 0 := by omega
      rw [hz] at h
      simp only [List.replicate, List.nil_append] at h
      exact ih (j - min k 2) h
    · set r := min k 2 - j with hr
      have hr12 : r = 1 ∨ r = 2 := by omega
      obtain ⟨w, hw⟩ := h
      have hj0 : j - min k 2 = 0 := by omega
      rw [hj0, List.drop_zero] at hw
      have hXeq : X = nnn.drop r ++ w := by
        have := congrArg (List.drop r) hw
        rw [drop_replicate_append, List.drop_append_eq_append_drop] at this
        have e1 : r - r = 0 := by omega
        have e2 : nnn.length = 3 := rfl
        have e3 : r - 3 = 0 := by omega
        rw [e1, e2, e3, List.drop_zero] at this
        simpa using this.symm
      have hhead : ∃ y, X = '\n' :: y := by
        rcases hr12 with h1 | h1 <;> rw [h1] at hXeq
        · exact ⟨'\n' :: w, by simpa [nnn] using hXeq⟩
        · exact ⟨w, by simpa [nnn] using hXeq⟩
      obtain ⟨y, hy⟩ := hhead
      have hne := collapseRuns_head_ne (rest.dropWhile (fun x => decide (x = '\n')))
        (fun c t hct => dropWhile_head_ne hct) '\n' y (by rw [← hX, ← hy]  )
      exact hne rfl
  | case3 c rest hc ih =>
    rw [collapseRuns_cons_ne rest hc]
    intro j h
    cases j with
    | zero =>
      rw [List.drop_zero] at h
      exact hc (List.cons_prefix_cons.mp h).1.symm
    | succ j' =>
      exact ih j' (by simpa using h)

theorem collapse_id_of_noTriple : ∀ z : Str, noOcc nnn z → collapseRuns z = z := by
  intro z
  induction z using collapseRuns.induct with
  | case1 => intro _; rw [collapseRuns_nil]
  | case2 rest ih =>
    intro hno
    set k := (rest.takeWhile (fun x => decide (x = '\n'))).length + 1 with hk
    have hk2 : k ≤ 2 := by
      by_contra hk3
      refine hno 0 ?_
      rw [List.drop_zero, run_decomp rest, ← hk]
      have hsplit : List.replicate k '\n' = nnn ++ List.replicate (k - 3) '\n' := by
        have h33 : nnn = List.replicate 3 '\n' := rfl
        rw [h33, ← List.replicate_add]
        congr 1
        omega
      rw [hsplit, List.append_assoc]
      exact ⟨_, rfl⟩
    have hsuf : rest.dropWhile (fun x => decide (x = '\n')) <:+ '\n' :: rest := by
      refine ⟨List.replicate k '\n', ?_⟩
      rw [← run_decomp rest]
    have hX := ih (noOcc_of_suffix hsuf hno)
    rw [collapseRuns_run, ← hk, hX]
    have hmin : min k 2 = k := by omega
    rw [hmin, ← run_decomp rest]
  | case3 c rest hc ih =>
    intro hno
    rw [collapseRuns_cons_ne rest hc]
    rw [ih (noOcc_of_suffix ⟨[c], rfl⟩ hno)]

theorem dropWhile_head_false {α : Type} (p : α → Bool) :
    ∀ {l : List α} {c : α} {t : List α}, l.dropWhile p = c :: t → p c = false := by
  intro l
  induction l with
  | nil => intro c t h; simp at h
  | cons a l' ih =>
    intro c t h
    by_cases hp : p a
    · rw [List.dropWhile_cons_of_pos hp] at h
      exact ih h
    · rw [List.dropWhile_cons_of_neg hp] at h
      injection h with h1 h2
      subst h1
      simpa using hp

theorem pyStrip_eq (s : Str) :
    pyStrip s = (s.dropWhile isSpaceChar).rdropWhile isSpaceChar := rfl

theorem pyStrip_infix (s : Str) : pyStrip s <:+: s := by
  rw [pyStrip_eq]
  exact (List.rdropWhile_prefix _ _).isInfix.trans (List.dropWhile_suffix _).isInfix

theorem pyStrip_idem (s : Str) : pyStrip (pyStrip s) = pyStrip s := by
  rw [pyStrip_eq, pyStrip_eq]
  have hA : ((s.dropWhile isSpaceChar).rdropWhile isSpaceChar).dropWhile isSpaceChar
      = (s.dropWhile isSpaceChar).rdropWhile isSpaceChar := by
    set u := s.dropWhile isSpaceChar with hu
    cases hyc : u.rdropWhile isSpaceChar with
    | nil => rfl
    | cons c t =>
      have hpre : u.rdropWhile isSpaceChar <+: u := List.rdropWhile_prefix _ _
      rw [hyc] at hpre
      obtain ⟨w, hw⟩ := hpre
      have hhead : s.dropWhile isSpaceChar = c :: (t ++ w) := by
        rw [← hu, ← hw]
        rfl
      have hc : ¬ isSpaceChar c = true := by
        rw [dropWhile_head_false isSpaceChar hhead]
        simp
      rw [List.dropWhile_cons_of_neg hc]
  rw [hA, List.rdropWhile_idempotent]

theorem noOcc_collapse_shape {a t m : Str} (ha : ∀ c ∈ a, ¬ c = '\n')
    (ht : t = [] ∨ t = ['\n']) (hane : a ≠ []) (hm : m = '\n' :: (a ++ t))
    {z : Str} (h : noOcc m z) : noOcc m (collapseRuns z) := by
  subst hm
  rw [noOcc_iff_not_hasOcc] at h ⊢
  exact fun hc => h (hasOcc_collapse ha ht hane z hc)

/-- Stages 2-5 of the cleaning pipeline are idempotent as a composite:
truncating signatures and quotes, collapsing newline runs and stripping
a second time leaves the text unchanged. -/
theorem postClean_idem (s : Str) : postClean (postClean s) = postClean s := by
  have hsigpair : List.Pairwise (fun p q => compatB p q = true) sigMarkers := by decide
  have hsigne : ∀ p ∈ sigMarkers, p ≠ [] := by decide
  have hqpair : List.Pairwise (fun p q => compatB p q = true) quoteMarkers := by decide
  have hqne : ∀ p ∈ quoteMarkers, p ≠ [] := by decide
  set s1 := sigMarkers.foldl truncMarker s with hs1
  set s2 := quoteMarkers.foldl truncMarker s1 with hs2
  set s3 := collapseRuns s2 with hs3
  have hpc : postClean s = pyStrip s3 := by
    unfold postClean
    rw [← hs1, ← hs2, ← hs3]
  have hsig1 : ∀ m ∈ sigMarkers, noOcc m s1 := by
    intro m hm
    rw [hs1, foldl_truncMarker_eq sigMarkers hsigpair hsigne s]
    exact noOcc_take_cutMin hm (hsigne m hm) s
  have hs2take : s2 = s1.take (cutMin quoteMarkers s1) := by
    rw [hs2, foldl_truncMarker_eq quoteMarkers hqpair hqne s1]
  have hsig2 : ∀ m ∈ sigMarkers, noOcc m s2 := fun m hm =>
    noOcc_of_prefix (hs2take ▸ List.take_prefix _ _) (hsig1 m hm)
  have hq2 : ∀ m ∈ quoteMarkers, noOcc m s2 := by
    intro m hm
    rw [hs2take]
    exact noOcc_take_cutMin hm (hqne m hm) s1
  have hsig3 : ∀ m ∈ sigMarkers, noOcc m s3 := by
    intro m hm
    simp only [sigMarkers, List.mem_cons, List.not_mem_nil, or_false] at hm
    rw [hs3]
    rcases hm with rfl | rfl | rfl | rfl | rfl | rfl
    · exact noOcc_collapse_shape (a := str "-- ") (t := str "\n")
        (by decide) (by decide) (by decide) (by decide) (hsig2 _ (by decide))
    · exact noOcc_collapse_shape (a := str "Regards,") (t := [])
        (by decide) (by decide) (by decide) (by decide) (hsig2 _ (by decide))
    · exact noOcc_collapse_shape (a := str "Best regards,") (t := [])
        (by decide) (by decide) (by decide) (by decide) (hsig2 _ (by decide))
    · exact noOcc_collapse_shape (a := str "Thanks,") (t := [])
        (by decide) (by decide) (by decide) (by decide) (hsig2 _ (by decide))
    · exact noOcc_collapse_shape (a := str "Thank you,") (t := [])
        (by decide) (by decide) (by decide) (by decide) (hsig2 _ (by decide))
    · exact noOcc_collapse_shape (a := str "Cheers,") (t := [])
        (by decide) (by decide) (by decide) (by decide) (hsig2 _ (by decide))
  have hq3 : ∀ m ∈ quoteMarkers, noOcc m s3 := by
    intro m hm
    simp only [quoteMarkers, List.mem_cons, List.not_mem_nil, or_false] at hm
    rw [hs3]
    rcases hm with rfl | rfl | rfl
    · exact noOcc_collapse_shape (a := str "On ") (t := [])
        (by decide) (by decide) (by decide) (by decide) (hq2 _ (by decide))
    · exact noOcc_collapse_shape (a := str "> ") (t := [])
        (by decide) (by decide) (by decide) (by decide) (hq2 _ (by decide))
    · exact noOcc_collapse_shape (a := str "-----Original Message-----") (t := [])
        (by decide) (by decide) (by decide) (by decide) (hq2 _ (by decide))
  have hnnn3 : noOcc nnn s3 := by
    rw [hs3]
    exact collapse_noTriple s2
  have hxinf : postClean s <:+: s3 := by
    rw [hpc]
    exact pyStrip_infix s3
  have hsigx : ∀ m ∈ sigMarkers, noOcc m (postClean s) :=
    fun m hm => noOcc_of_infix hxinf (hsig3 m hm)
  have hqx : ∀ m ∈ quoteMarkers, noOcc m (postClean s) :=
    fun m hm => noOcc_of_infix hxinf (hq3 m hm)
  have hnnnx : noOcc nnn (postClean s) := noOcc_of_infix hxinf hnnn3
  have h1 : sigMarkers.foldl truncMarker (postClean s) = postClean s :=
    foldl_truncMarker_of_noOcc hsigx
  have h2 : quoteMarkers.foldl truncMarker (postClean s) = postClean s :=
    foldl_truncMarker_of_noOcc hqx
  have h3 : collapseRuns (postClean s) = postClean s :=
    collapse_id_of_noTriple _ hnnnx
  have h4 : pyStrip (postClean s) = postClean s := by
    rw [hpc, pyStrip_idem]
  conv_lhs => rw [postClean]
  rw [h1, h2, h3, h4]

/-- Parser with the custom pattern `a(b)` (key "x"), whose removal is not
idempotent under `re.sub`. -/
def p8cex : EmailParser :=
  mkEmailParser ⟨none, none, none,
    some [(str "x", RawPattern.valid ⟨false, [.lit 'a'], [.lit 'b']⟩)], none⟩

/-- C8 counterexample: with the compilable custom pattern `a(b)` the body
"aabb" cleans to "ab" (the single match "ab" at offset 1 is removed), and
cleaning "ab" again removes the now-adjacent match entirely, yielding "":
`_clean_body` applied twice differs from `_clean_body`. -/
theorem c8_counterexample :
    cleanBody p8cex (str "aabb") = .ok (str "ab") ∧
    cleanBody p8cex (str "ab") = .ok [] := by
  constructor
  · with_unfolding_all rfl
  · with_unfolding_all rfl

/-- Parser with an empty configuration (all keys absent), used to
instantiate the idempotence theorem. -/
def p8w : EmailParser := mkEmailParser ⟨none, none, none, none, none⟩

/-- C8: the cleaning pipeline is not idempotent in general (see
`c8_counterexample`), but (1) stages 2-5 (signature truncation, quote
truncation, newline collapsing, strip) are idempotent as a composite, and
(2) `_clean_body` returns an already-cleaned body unchanged whenever the
pattern-removal stage fixes that cleaned body. -/
theorem c8_cleaning_idempotence :
    (∀ s : Str, postClean (postClean s) = postClean s) ∧
    (∀ (p : EmailParser) (b c : Str),
      cleanBody p b = .ok c → subAllE p.patterns c = .ok c →
      cleanBody p c = .ok c) := by
  refine ⟨postClean_idem, ?_⟩
  intro p b c hb hc
  unfold cleanBody at hb ⊢
  cases hsb : subAllE p.patterns b with
  | error e => rw [hsb] at hb; exact absurd hb (by simp)
  | ok s =>
    rw [hsb] at hb
    cases hb
    rw [hc]
    simp only [postClean_idem]

/-- Witness: the empty-config parser fixes the body "Hello", so the
idempotence theorem applies to it concretely. -/
theorem c8_cleaning_idempotence_witness :
    cleanBody p8w (str "Hello") = .ok (str "Hello") :=
  c8_cleaning_idempotence.2 p8w (str "Hello") (str "Hello")
    (by with_unfolding_all rfl) (by with_unfolding_all rfl)
